import Mathlib

/-!
Verification of the agent-backend client library against its specification.

The development shallowly embeds the Python source:

* `src/python/agent_backend/backends/remote.py` — the remote filesystem
  backend (path handling for SFTP calls, exec post-processing, the
  connection-status / reconnection state machine, destroy);
* `src/python/agent_backend/mcp_integration/client.py` and
  `src/python/agent_backend/adapters/vercel.py` — MCP session creation;
* `src/examples/PyBasic/chat.py` — the agentic chat loop (streamed
  tool-call delta accumulation, iteration bound).

Python strings are embedded as `List Char` (`PStr`), machine integers as
`Nat`/`Int`, floats appearing in the backoff computation as `ℚ`, and
fallible code as `Except`/`Option`.  External I/O (the SSH transport, the
SFTP server, the LLM stream, timers) is supplied by explicit oracle
records, so every definition is executable.
-/

/-- Python strings, embedded as lists of characters. -/
abbrev PStr := List Char

/-- Coerce a Lean string literal to the `PStr` embedding. -/
def pstr (s : String) : PStr := s.data

/-- Python `"/".join(parts)` and the separator-interleaving part of
`posixpath.join` for non-absolute, non-empty components. -/
def joinSlash : List PStr → PStr
  | [] => []
  | [s] => s
  | s :: ss => s ++ '/' :: joinSlash ss

/-- Python `path.split("/")`: split on every separator, keeping empty
pieces. -/
def splitSlash (p : PStr) : List PStr := p.splitOn '/'

/-- Python `posixpath.join(a, b)` for two arguments (cpython:
`if b.startswith(sep): path = b; elif not path or path.endswith(sep):
path += b; else: path += sep + b`). -/
def pjoin (a b : PStr) : PStr :=
  if b.head? = some '/' then b
  else if a = [] ∨ a.getLast? = some '/' then a ++ b
  else a ++ '/' :: b

/-- The component loop of `posixpath.normpath`: skip `""` and `"."`,
push ordinary components, pop on `".."` (except at the root of an
absolute path, or when the stack already ends in `".."` of a relative
path). `absRoot` records `initial_slashes != 0`. -/
def normLoop (absRoot : Bool) : List PStr → List PStr → List PStr
  | acc, [] => acc
  | acc, c :: cs =>
    if c = [] ∨ c = pstr "." then normLoop absRoot acc cs
    else if c ≠ pstr ".." ∨ (¬ absRoot ∧ acc = []) ∨ acc.getLast? = some (pstr "..") then
      normLoop absRoot (acc ++ [c]) cs
    else if acc ≠ [] then normLoop absRoot acc.dropLast cs
    else normLoop absRoot acc cs

/-- The `initial_slashes` computation of `posixpath.normpath`: 2 for a
path starting with exactly two slashes, else 1 for an absolute path,
else 0. -/
def initialSlashes (p : PStr) : Nat :=
  if p.take 2 = pstr "//" ∧ p.take 3 ≠ pstr "///" then 2
  else if p.head? = some '/' then 1
  else 0

/-- Python `posixpath.normpath`: purely lexical normalisation, resolving
`"."` and `".."` segments without touching the filesystem. -/
def normpath (p : PStr) : PStr :=
  if p = [] then pstr "."
  else
    let slashes := initialSlashes p
    let comps := splitSlash p
    let out := List.replicate slashes '/' ++ joinSlash (normLoop (slashes ≠ 0) [] comps)
    if out = [] then pstr "." else out

/-- Python `posixpath.dirname`: everything up to the final separator,
with trailing separators stripped unless the result is all slashes. -/
def dirnameChars (p : PStr) : PStr :=
  let head := (p.reverse.dropWhile (· ≠ '/')).reverse
  if head ≠ [] ∧ ¬ head.all (· = '/') then (head.reverse.dropWhile (· = '/')).reverse
  else head

/-- Length of the longest common elementwise prefix of two lists
(cpython `commonprefix` applied to the split segment lists). -/
def commonPrefixLen : List PStr → List PStr → Nat
  | x :: xs, y :: ys => if x = y then commonPrefixLen xs ys + 1 else 0
  | _, _ => 0

/-- Python `posixpath.relpath(path, start)` restricted to absolute
arguments, for which cpython's `abspath` reduces to `normpath` (both
call sites in `remote.py` pass absolute paths). -/
def relpathChars (path start : PStr) : PStr :=
  let startList := (splitSlash (normpath start)).filter (· ≠ [])
  let pathList := (splitSlash (normpath path)).filter (· ≠ [])
  let i := commonPrefixLen startList pathList
  let rel := List.replicate (startList.length - i) (pstr "..") ++ pathList.drop i
  if rel = [] then pstr "." else joinSlash rel

example : normpath (pstr "/var/workspace/sub/file.txt") = pstr "/var/workspace/sub/file.txt" := by decide
example : normpath (pstr "/workspace/a/b/../../../../etc") = pstr "/etc" := by decide
example : normpath (pstr "/workspace/..") = pstr "/" := by decide
example : normpath (pstr "a/../../..") = pstr "../.." := by decide
example : dirnameChars (pstr "/var/workspace/sub/file.txt") = pstr "/var/workspace/sub" := by decide
example : dirnameChars (pstr "/a") = pstr "/" := by decide
example : relpathChars (pstr "/var/workspace/sub") (pstr "/var/workspace") = pstr "sub" := by decide
example : relpathChars (pstr "/var/workspace") (pstr "/var/workspace") = pstr "." := by decide
example : pjoin (pstr "/workspace") (pstr "sub/file.txt") = pstr "/workspace/sub/file.txt" := by decide

/-- A well-formed path segment: nonempty, slash-free, and not one of the
special components resolved by `normpath`. -/
def GoodSeg (s : PStr) : Prop :=
  s ≠ [] ∧ '/' ∉ s ∧ s ≠ pstr "." ∧ s ≠ pstr ".."

/-- All segments of a list are well-formed. -/
def GoodSegs (l : List PStr) : Prop := ∀ s ∈ l, GoodSeg s

/-- Render an absolute POSIX path from its segments (`[]` renders the
root `"/"`). -/
def renderAbs (segs : List PStr) : PStr := '/' :: joinSlash segs

theorem joinSlash_eq_intercalate (l : List PStr) :
    joinSlash l = List.intercalate [ '/' ] l := by
  match l with
  | [] => simp [joinSlash, List.intercalate]
  | [s] => simp [joinSlash, List.intercalate]
  | s :: s2 :: ss =>
    have ih := joinSlash_eq_intercalate (s2 :: ss)
    simp only [joinSlash, List.intercalate] at ih ⊢
    rw [List.intersperse_cons_cons, List.flatten_cons, List.flatten_cons, ← List.flatten_cons,
      ih]
    simp

theorem splitSlash_joinSlash {l : List PStr} (hx : ∀ s ∈ l, '/' ∉ s) (hl : l ≠ []) :
    splitSlash (joinSlash l) = l := by
  rw [joinSlash_eq_intercalate]
  exact List.splitOn_intercalate _ '/' hx hl

theorem splitSlash_cons_slash (q : PStr) : splitSlash ('/' :: q) = [] :: splitSlash q := by
  simp [splitSlash, List.splitOn, List.splitOnP_cons]

theorem normLoop_good {l : List PStr} (hl : GoodSegs l) (b : Bool) :
    ∀ acc, normLoop b acc l = acc ++ l := by
  induction l with
  | nil => intro acc; simp [normLoop]
  | cons c cs ih =>
    intro acc
    obtain ⟨hne, _, hdot, hdd⟩ := hl c (by simp)
    rw [normLoop, if_neg (by simp [hne, hdot]), if_pos (Or.inl hdd),
      ih (fun s hs => hl s (by simp [hs]))]
    simp

theorem joinSlash_cons_head {s : PStr} (c : Char) (r : PStr) (ss : List PStr)
    (h : s = c :: r) : ∃ t, joinSlash (s :: ss) = c :: t := by
  subst h
  cases ss with
  | nil => exact ⟨r, rfl⟩
  | cons s2 tl => exact ⟨r ++ '/' :: joinSlash (s2 :: tl), by simp [joinSlash]⟩

theorem initialSlashes_renderAbs {l : List PStr} (hl : GoodSegs l) :
    initialSlashes (renderAbs l) = 1 := by
  cases l with
  | nil => simp [renderAbs, joinSlash, initialSlashes, pstr]
  | cons s ss =>
    obtain ⟨hne, hslash, _, _⟩ := hl s (by simp)
    obtain ⟨c, r, hcr⟩ := List.exists_cons_of_ne_nil hne
    obtain ⟨t, ht⟩ := joinSlash_cons_head c r ss hcr
    have hc : c ≠ '/' := by
      intro h; exact hslash (by simp [hcr, h])
    simp [renderAbs, ht, initialSlashes, pstr, List.take_succ_cons, hc]

theorem normpath_renderAbs {l : List PStr} (hl : GoodSegs l) :
    normpath (renderAbs l) = renderAbs l := by
  have hslashes := initialSlashes_renderAbs hl
  rw [normpath, if_neg (by simp [renderAbs])]
  simp only [hslashes]
  cases l with
  | nil =>
    simp [renderAbs, joinSlash, splitSlash, List.splitOn, List.splitOnP_cons,
      List.splitOnP_nil, normLoop, pstr]
  | cons s ss =>
    have hx : ∀ t ∈ s :: ss, '/' ∉ t := fun t ht => (hl t ht).2.1
    rw [show renderAbs (s :: ss) = '/' :: joinSlash (s :: ss) from rfl,
      splitSlash_cons_slash, splitSlash_joinSlash hx (by simp)]
    rw [show normLoop (decide (1 ≠ 0)) [] ([] :: s :: ss) = normLoop true [] (s :: ss) by
      simp [normLoop]]
    rw [normLoop_good hl true []]
    simp [renderAbs]

theorem joinSlash_append_singleton {xs : List PStr} (y : PStr) (hxs : xs ≠ []) :
    joinSlash (xs ++ [y]) = joinSlash xs ++ '/' :: y := by
  match xs with
  | [x] => rfl
  | x :: x2 :: xt =>
    have ih := @joinSlash_append_singleton (x2 :: xt) y (by simp)
    show joinSlash (x :: ((x2 :: xt) ++ [y])) = _
    rw [show joinSlash (x :: ((x2 :: xt) ++ [y])) = x ++ '/' :: joinSlash ((x2 :: xt) ++ [y])
      from rfl, ih]
    simp [joinSlash]

theorem getLast?_joinSlash {l : List PStr} (hl : GoodSegs l) (hne : l ≠ []) :
    ∃ c, c ≠ '/' ∧ (joinSlash l).getLast? = some c := by
  match l with
  | [s] =>
    obtain ⟨hs, hslash, _, _⟩ := hl s (by simp)
    refine ⟨s.getLast hs, ?_, ?_⟩
    · intro h
      exact hslash (h ▸ List.getLast_mem hs)
    · exact List.getLast?_eq_getLast s hs
  | s :: s2 :: ss =>
    obtain ⟨c, hc, hlast⟩ := getLast?_joinSlash (l := s2 :: ss)
      (fun t ht => hl t (List.mem_cons_of_mem s ht)) (by simp)
    refine ⟨c, hc, ?_⟩
    have hjs : joinSlash (s2 :: ss) ≠ [] := by
      obtain ⟨d, r, hdr⟩ := List.exists_cons_of_ne_nil (hl s2 (by simp)).1
      obtain ⟨t, ht⟩ := joinSlash_cons_head d r ss hdr
      simp [ht]
    show (s ++ '/' :: joinSlash (s2 :: ss)).getLast? = some c
    rw [List.getLast?_append_of_ne_nil s (by simp)]
    obtain ⟨j, jt, hj⟩ := List.exists_cons_of_ne_nil hjs
    rw [hj, List.getLast?_cons_cons, ← hj, hlast]

theorem dirnameChars_append {a y : PStr} (hy : '/' ∉ y) {c : Char} (hc : c ≠ '/')
    (hlast : a.getLast? = some c) :
    dirnameChars (a ++ '/' :: y) = a := by
  have hmem : c ∈ a := List.mem_of_getLast?_eq_some hlast
  have hrev : (a ++ '/' :: y).reverse = y.reverse ++ '/' :: a.reverse := by
    simp
  have hdropy : ∀ d ∈ y.reverse, (decide (d ≠ '/')) = true := by
    intro d hd
    simp only [decide_eq_true_eq]
    intro h
    exact hy (h ▸ (List.mem_reverse.mp hd))
  have hhead : ((a ++ '/' :: y).reverse.dropWhile (· ≠ '/')).reverse = a ++ ['/'] := by
    rw [hrev, List.dropWhile_append_of_pos hdropy, List.dropWhile_cons]
    simp
  rw [dirnameChars]
  simp only [hhead]
  rw [if_pos]
  · have : (a ++ ['/']).reverse = '/' :: a.reverse := by simp
    rw [this, List.dropWhile_cons, if_pos (by simp)]
    obtain ⟨t, ht⟩ : ∃ t, a.reverse = c :: t := by
      have : a.reverse.head? = some c := by rw [List.head?_reverse, hlast]
      cases hr : a.reverse with
      | nil => rw [hr] at this; simp at this
      | cons u ut =>
        rw [hr] at this
        simp at this
        exact ⟨ut, by rw [this]⟩
    rw [ht, List.dropWhile_cons, if_neg (by simp [hc]), ← ht]
    simp
  · constructor
    · simp
    · intro hall
      rw [List.all_eq_true] at hall
      have := hall c (by simp [hmem])
      simp at this
      exact hc this

theorem dirname_renderAbs {xs : List PStr} {y : PStr} (h : GoodSegs (xs ++ [y])) :
    dirnameChars (renderAbs (xs ++ [y])) = renderAbs xs := by
  obtain ⟨hyne, hyslash, _, _⟩ := h y (by simp)
  cases xs with
  | nil =>
    show dirnameChars ('/' :: joinSlash [y]) = renderAbs []
    show dirnameChars ('/' :: y) = renderAbs []
    rw [show ('/' :: y) = ([] : PStr) ++ '/' :: y from rfl]
    rw [dirnameChars]
    have hdropy : ∀ d ∈ y.reverse, (decide (d ≠ '/')) = true := by
      intro d hd
      simp only [decide_eq_true_eq]
      intro hdc
      exact hyslash (hdc ▸ (List.mem_reverse.mp hd))
    have hhead : ((([] : PStr) ++ '/' :: y).reverse.dropWhile (· ≠ '/')).reverse = ['/'] := by
      rw [show (([] : PStr) ++ '/' :: y).reverse = y.reverse ++ '/' :: [] by simp,
        List.dropWhile_append_of_pos hdropy, List.dropWhile_cons]
      simp
    simp only [hhead]
    rw [if_neg]
    · rfl
    · intro hcond
      exact hcond.2 (by simp)
  | cons x xt =>
    have hxs : GoodSegs (x :: xt) := fun s hs => h s (List.mem_append_left [y] hs)
    obtain ⟨c, hc, hlast⟩ := getLast?_joinSlash hxs (by simp)
    have hlast2 : ('/' :: joinSlash (x :: xt)).getLast? = some c := by
      obtain ⟨d, r, hdr⟩ := List.exists_cons_of_ne_nil (hxs x (by simp)).1
      obtain ⟨t, ht⟩ := joinSlash_cons_head d r xt hdr
      rw [ht, List.getLast?_cons_cons, ← ht]
      exact hlast
    show dirnameChars ('/' :: joinSlash ((x :: xt) ++ [y])) = renderAbs (x :: xt)
    rw [joinSlash_append_singleton y (by simp),
      show ('/' :: (joinSlash (x :: xt) ++ '/' :: y)) =
        ('/' :: joinSlash (x :: xt)) ++ '/' :: y by simp]
    exact dirnameChars_append hyslash hc hlast2

theorem segsOf_renderAbs {l : List PStr} (hl : GoodSegs l) :
    (splitSlash (normpath (renderAbs l))).filter (· ≠ []) = l := by
  rw [normpath_renderAbs hl]
  cases l with
  | nil => decide
  | cons s ss =>
    have hx : ∀ t ∈ s :: ss, '/' ∉ t := fun t ht => (hl t ht).2.1
    rw [show renderAbs (s :: ss) = '/' :: joinSlash (s :: ss) from rfl,
      splitSlash_cons_slash, splitSlash_joinSlash hx (by simp)]
    rw [List.filter_cons, if_neg (by simp)]
    exact List.filter_eq_self.mpr (fun t ht => by simpa using (hl t ht).1)

theorem commonPrefixLen_self_append : ∀ (xs ys : List PStr),
    commonPrefixLen xs (xs ++ ys) = xs.length := by
  intro xs ys
  induction xs with
  | nil => cases ys <;> rfl
  | cons x xt ih => simp [commonPrefixLen, ih]

theorem relpath_renderAbs {root pre : List PStr} (h : GoodSegs (root ++ pre)) :
    relpathChars (renderAbs (root ++ pre)) (renderAbs root) =
      if pre = [] then pstr "." else joinSlash pre := by
  have hroot : GoodSegs root := fun s hs => h s (List.mem_append_left pre hs)
  rw [relpathChars]
  simp only [segsOf_renderAbs hroot, segsOf_renderAbs h, commonPrefixLen_self_append,
    Nat.sub_self, List.replicate_zero, List.drop_left, List.nil_append]

theorem pjoin_root_renderAbs (l : List PStr) :
    pjoin (pstr "/") (renderAbs l) = renderAbs l := by
  simp [pjoin, renderAbs]

theorem joinSlash_good_ne_dot {l : List PStr} (hl : GoodSegs l) (hne : l ≠ []) :
    joinSlash l ≠ pstr "." := by
  match l with
  | [s] => exact (hl s (by simp)).2.2.1
  | s :: s2 :: ss =>
    intro hdot
    have hlen := congrArg List.length hdot
    have hs : 1 ≤ s.length := List.length_pos.mpr (hl s (by simp)).1
    rw [show joinSlash (s :: s2 :: ss) = s ++ '/' :: joinSlash (s2 :: ss) from rfl] at hlen
    simp [pstr] at hlen
    omega

/-- The SFTP calls a remote-backend file operation issues, recorded with
the exact path arguments the Python code passes to the SFTP client. -/
inductive SFTPCall
  | makedirs (path : PStr)
  | openWrite (path : PStr)
  | mkdirOne (path : PStr)
  | renameCall (oldPath newPath : PStr)
  | listdir (path : PStr)
deriving DecidableEq, Repr

/-- Embeds `RemoteFilesystemBackend.write` (`remote.py` lines 225-247),
given the already-validated path `resolved`: compute
`full_path = posixpath.normpath(posixpath.join("/", resolved))`, take its
`posixpath.dirname`, convert that to a `root_dir`-relative path with
`posixpath.relpath`, call `sftp.makedirs` on it unless it is `"."`, then
open `full_path` (absolute) for writing. -/
def writeCalls (root_dir resolved : PStr) : List SFTPCall :=
  let full_path := normpath (pjoin (pstr "/") resolved)
  let parent := dirnameChars full_path
  let rel_parent := relpathChars parent root_dir
  (if rel_parent ≠ pstr "." then [SFTPCall.makedirs rel_parent] else []) ++
    [SFTPCall.openWrite full_path]

/-- Embeds `RemoteFilesystemBackend.mkdir` (`remote.py` lines 310-330):
recursive mkdir calls `sftp.makedirs` on
`posixpath.relpath(full_path, root_dir)`; non-recursive mkdir calls
`sftp.mkdir` on the absolute `full_path`. -/
def mkdirCalls (root_dir resolved : PStr) (recursive : Bool) : List SFTPCall :=
  let full_path := normpath (pjoin (pstr "/") resolved)
  if recursive then [SFTPCall.makedirs (relpathChars full_path root_dir)]
  else [SFTPCall.mkdirOne full_path]

/-- Embeds `RemoteFilesystemBackend.rename` (`remote.py` lines 249-263):
`sftp.rename(old_resolved, new_resolved)` on the two validated paths,
with no further path computation. -/
def renameCalls (oldResolved newResolved : PStr) : List SFTPCall :=
  [SFTPCall.renameCall oldResolved newResolved]

instance (s : PStr) : Decidable (GoodSeg s) := by
  unfold GoodSeg; infer_instance

instance (l : List PStr) : Decidable (GoodSegs l) := by
  unfold GoodSegs; infer_instance

/-- C1: for a backend rooted at `R = renderAbs rootSegs`, `write` on a
validated absolute target `R/subSegs` calls `sftp.makedirs` on the
`R`-relative rendering of the parent segments — skipping `makedirs`
entirely when the parent equals `R` (`subSegs.dropLast = []`) — and then
opens the file using the absolute path; recursive `mkdir` calls
`sftp.makedirs` on the `R`-relative rendering of `subSegs`, while
non-recursive `mkdir` calls `sftp.mkdir` with the absolute path. -/
theorem write_mkdir_chroot_relative (rootSegs subSegs : List PStr)
    (hgood : GoodSegs (rootSegs ++ subSegs)) (hsub : subSegs ≠ []) :
    writeCalls (renderAbs rootSegs) (renderAbs (rootSegs ++ subSegs)) =
      (if subSegs.dropLast = [] then []
       else [SFTPCall.makedirs (joinSlash subSegs.dropLast)]) ++
        [SFTPCall.openWrite (renderAbs (rootSegs ++ subSegs))] ∧
    mkdirCalls (renderAbs rootSegs) (renderAbs (rootSegs ++ subSegs)) true =
      [SFTPCall.makedirs (joinSlash subSegs)] ∧
    mkdirCalls (renderAbs rootSegs) (renderAbs (rootSegs ++ subSegs)) false =
      [SFTPCall.mkdirOne (renderAbs (rootSegs ++ subSegs))] := by
  have hfull : normpath (pjoin (pstr "/") (renderAbs (rootSegs ++ subSegs))) =
      renderAbs (rootSegs ++ subSegs) := by
    rw [pjoin_root_renderAbs, normpath_renderAbs hgood]
  obtain ⟨ys, y, hys⟩ : ∃ ys y, subSegs = ys ++ [y] := by
    rcases List.eq_nil_or_concat subSegs with h | ⟨L, b, h⟩
    · exact absurd h hsub
    · exact ⟨L, b, by simpa [List.concat_eq_append] using h⟩
  subst hys
  have hgood2 : GoodSegs ((rootSegs ++ ys) ++ [y]) := by
    intro s hs
    exact hgood s (by simpa [List.append_assoc] using hs)
  have hgoodRootYs : GoodSegs (rootSegs ++ ys) :=
    fun s hs => hgood2 s (List.mem_append_left [y] hs)
  have hparent : dirnameChars (renderAbs (rootSegs ++ (ys ++ [y]))) =
      renderAbs (rootSegs ++ ys) := by
    rw [← List.append_assoc]
    exact dirname_renderAbs hgood2
  have hrel : relpathChars (renderAbs (rootSegs ++ ys)) (renderAbs rootSegs) =
      if ys = [] then pstr "." else joinSlash ys :=
    relpath_renderAbs hgoodRootYs
  have hrelFull : relpathChars (renderAbs (rootSegs ++ (ys ++ [y]))) (renderAbs rootSegs) =
      joinSlash (ys ++ [y]) := by
    rw [show relpathChars (renderAbs (rootSegs ++ (ys ++ [y]))) (renderAbs rootSegs) =
        if ys ++ [y] = [] then pstr "." else joinSlash (ys ++ [y]) from
      relpath_renderAbs (by simpa using hgood), if_neg (by simp)]
  refine ⟨?_, ?_, ?_⟩
  · rw [writeCalls]
    simp only [hfull, hparent, hrel, List.dropLast_concat]
    by_cases hys0 : ys = []
    · subst hys0
      simp
    · have hysGood : GoodSegs ys := fun s hs =>
        hgood s (List.mem_append_right rootSegs (List.mem_append_left [y] hs))
      have hne := joinSlash_good_ne_dot hysGood hys0
      simp [hys0, hne]
  · simp [mkdirCalls, hfull, hrelFull]
  · simp [mkdirCalls, hfull]

/-- Closed-instance check for `write_mkdir_chroot_relative`: the spec's
own example with `root_dir = "/var/workspace"` and target
`sub/file.txt`, evaluated concretely. -/
theorem write_mkdir_chroot_relative_witness :
    writeCalls (renderAbs [pstr "var", pstr "workspace"])
        (renderAbs ([pstr "var", pstr "workspace"] ++ [pstr "sub", pstr "file.txt"])) =
      (if ([pstr "sub", pstr "file.txt"] : List PStr).dropLast = [] then []
       else [SFTPCall.makedirs (joinSlash ([pstr "sub", pstr "file.txt"] : List PStr).dropLast)]) ++
        [SFTPCall.openWrite (renderAbs ([pstr "var", pstr "workspace"] ++ [pstr "sub", pstr "file.txt"]))] ∧
    mkdirCalls (renderAbs [pstr "var", pstr "workspace"])
        (renderAbs ([pstr "var", pstr "workspace"] ++ [pstr "sub", pstr "file.txt"])) true =
      [SFTPCall.makedirs (joinSlash [pstr "sub", pstr "file.txt"])] ∧
    mkdirCalls (renderAbs [pstr "var", pstr "workspace"])
        (renderAbs ([pstr "var", pstr "workspace"] ++ [pstr "sub", pstr "file.txt"])) false =
      [SFTPCall.mkdirOne (renderAbs ([pstr "var", pstr "workspace"] ++ [pstr "sub", pstr "file.txt"]))] :=
  write_mkdir_chroot_relative [pstr "var", pstr "workspace"] [pstr "sub", pstr "file.txt"]
    (by decide) (by decide)

example : writeCalls (pstr "/var/workspace") (pstr "/var/workspace/sub/file.txt") =
    [SFTPCall.makedirs (pstr "sub"), SFTPCall.openWrite (pstr "/var/workspace/sub/file.txt")] := by
  decide

example : writeCalls (pstr "/var/workspace") (pstr "/var/workspace/test.txt") =
    [SFTPCall.openWrite (pstr "/var/workspace/test.txt")] := by
  decide

example : writeCalls (pstr "/var/workspace") (pstr "/var/workspace/a/b/c/file.txt") =
    [SFTPCall.makedirs (pstr "a/b/c"), SFTPCall.openWrite (pstr "/var/workspace/a/b/c/file.txt")] := by
  decide

example : mkdirCalls (pstr "/var/workspace") (pstr "/var/workspace/sub/dir") true =
    [SFTPCall.makedirs (pstr "sub/dir")] := by
  decide

/-- C10: `rename` hands the two validated absolute paths to
`sftp.rename` unchanged; both arguments stay absolute (they begin with
the separator) and, unlike the `makedirs` arguments of `write` and
recursive `mkdir`, no translation to a `root_dir`-relative path is
applied (the relative translation would be a different string). -/
theorem rename_no_chroot_translation (rootSegs s1 s2 : List PStr)
    (h1 : GoodSegs (rootSegs ++ s1)) (hs1 : s1 ≠ []) :
    renameCalls (renderAbs (rootSegs ++ s1)) (renderAbs (rootSegs ++ s2)) =
      [SFTPCall.renameCall (renderAbs (rootSegs ++ s1)) (renderAbs (rootSegs ++ s2))] ∧
    (renderAbs (rootSegs ++ s1)).head? = some '/' ∧
    (renderAbs (rootSegs ++ s2)).head? = some '/' ∧
    relpathChars (renderAbs (rootSegs ++ s1)) (renderAbs rootSegs) ≠
      renderAbs (rootSegs ++ s1) := by
  refine ⟨rfl, rfl, rfl, ?_⟩
  rw [show relpathChars (renderAbs (rootSegs ++ s1)) (renderAbs rootSegs) =
      if s1 = [] then pstr "." else joinSlash s1 from relpath_renderAbs h1, if_neg hs1]
  obtain ⟨f, fs, hf⟩ := List.exists_cons_of_ne_nil hs1
  subst hf
  have hfgood : GoodSeg f := h1 f (List.mem_append_right rootSegs (by simp))
  obtain ⟨c, r, hcr⟩ := List.exists_cons_of_ne_nil hfgood.1
  have hc : c ≠ '/' := fun h => hfgood.2.1 (by simp [hcr, h])
  obtain ⟨t, ht⟩ := joinSlash_cons_head c r fs hcr
  intro heq
  rw [ht] at heq
  exact hc (by injection heq)

/-- Closed-instance check for `rename_no_chroot_translation`: renaming
`/var/workspace/old.txt` to `/var/workspace/new.txt`. -/
theorem rename_no_chroot_translation_witness :
    renameCalls (renderAbs ([pstr "var", pstr "workspace"] ++ [pstr "old.txt"]))
        (renderAbs ([pstr "var", pstr "workspace"] ++ [pstr "new.txt"])) =
      [SFTPCall.renameCall (renderAbs ([pstr "var", pstr "workspace"] ++ [pstr "old.txt"]))
        (renderAbs ([pstr "var", pstr "workspace"] ++ [pstr "new.txt"]))] ∧
    (renderAbs ([pstr "var", pstr "workspace"] ++ [pstr "old.txt"])).head? = some '/' ∧
    (renderAbs ([pstr "var", pstr "workspace"] ++ [pstr "new.txt"])).head? = some '/' ∧
    relpathChars (renderAbs ([pstr "var", pstr "workspace"] ++ [pstr "old.txt"]))
        (renderAbs [pstr "var", pstr "workspace"]) ≠
      renderAbs ([pstr "var", pstr "workspace"] ++ [pstr "old.txt"]) :=
  rename_no_chroot_translation [pstr "var", pstr "workspace"] [pstr "old.txt"]
    [pstr "new.txt"] (by decide) (by decide)

/-- Modelled from the spec: `path_validation.py` is not part of the
provided sources (only its tests and callers are), so
`validate_within_boundary` follows spec section 4.1 in posix mode, the
mode `RemoteFilesystemBackend._resolve_path` always uses.  An absolute
input equal to the root or lexically under it is normalised and
returned; an absolute input outside the root has its leading separators
stripped and is treated as relative; a relative input is joined to the
root and lexically normalised; a result that escapes the root is a
path-escape failure (`none`). -/
def validate_within_boundary (p root : PStr) : Option PStr :=
  let nroot := normpath root
  let under := fun (q : PStr) => q = nroot ∨ (nroot ++ pstr "/").isPrefixOf q
  if p.head? = some '/' ∧ under (normpath p) then
    some (normpath p)
  else
    let rel := if p.head? = some '/' then p.dropWhile (· = '/') else p
    let joined := normpath (pjoin root rel)
    if under joined then some joined else none

example : validate_within_boundary (pstr "file.txt") (pstr "/workspace") =
    some (pstr "/workspace/file.txt") := by decide
example : validate_within_boundary (pstr ".") (pstr "/workspace") =
    some (pstr "/workspace") := by decide
example : validate_within_boundary (pstr "/workspace/a/b") (pstr "/workspace") =
    some (pstr "/workspace/a/b") := by decide
example : validate_within_boundary (pstr "/etc/passwd") (pstr "/workspace") =
    some (pstr "/workspace/etc/passwd") := by decide
example : validate_within_boundary (pstr "../etc/passwd") (pstr "/workspace") = none := by
  decide
example : validate_within_boundary (pstr "a/b/../../../../etc") (pstr "/workspace") = none := by
  decide
example : validate_within_boundary (pstr "/workspace") (pstr "/workspace") =
    some (pstr "/workspace") := by decide

/-- Connection status of a remote backend (spec section 3). -/
inductive ConnectionStatus
  | disconnected
  | connecting
  | connected
  | reconnecting
  | destroyed
deriving DecidableEq, Repr

/-- The stable error kinds of `types.py` (spec section 7).
`not_safe_command` embeds the kind named UNSAFE_COMMAND in the source. -/
inductive ErrorCode
  | path_escape
  | empty_command
  | dangerous_operation
  | not_safe_command
  | exec_failed
  | read_failed
  | write_failed
  | ls_failed
  | connection_closed
  | timeout
deriving DecidableEq, Repr

/-- An operation failure: a `BackendError` carrying a stable kind, or an
exception from outside the library (transport errors raised by
`connect()` propagate uncaught). -/
inductive OpError
  | backend (kind : ErrorCode)
  | exception
deriving DecidableEq, Repr

/-- The backend fields a single remote operation reads
(`RemoteFilesystemBackend.__init__`, remote.py lines 45-66). -/
structure OpCtx where
  status : ConnectionStatus
  transportPresent : Bool
  root_dir : PStr
  prevent_dangerous : Bool
  max_output_length : Nat
deriving Repr

/-- Result of `transport.run` (an asyncssh SSHCompletedProcess). -/
structure RunResult where
  returncode : Int
  stdout : PStr
  stderr : PStr

/-- FileStat record (spec section 3). -/
structure FileStat where
  is_file : Bool
  is_directory : Bool
  size : Nat
  modified : Nat
deriving DecidableEq, Repr

/-- Oracle for the external effects of one operation: the safety oracle
(`safety.py` is outside the modelled core), the outcome of a connect
attempt, and the results of transport/SFTP calls; `none` or a `false`
Ok-flag means the external call raised. -/
structure OpWorld where
  dangerous : PStr → Bool
  commandSafe : PStr → Option PStr
  connectOk : Bool
  runRes : PStr → RunResult
  readData : PStr → Option PStr
  writeOk : Bool
  renameOk : Bool
  listdirRes : PStr → Option (List PStr)
  makedirsOk : Bool
  mkdirOk : Bool
  statRes : PStr → Option FileStat

/-- `RemoteFilesystemBackend._ensure_connected` (remote.py lines
110-116): a destroyed backend fails with connection-closed; connected
with a live transport is a no-op; otherwise `connect()` runs and its
transport failures propagate as exceptions. -/
def ensureConnected (c : OpCtx) (w : OpWorld) : Except OpError Unit :=
  if c.status = ConnectionStatus.destroyed then
    Except.error (OpError.backend ErrorCode.connection_closed)
  else if c.status = ConnectionStatus.connected ∧ c.transportPresent then Except.ok ()
  else if w.connectOk then Except.ok () else Except.error OpError.exception

/-- `RemoteFilesystemBackend._resolve_path` (remote.py lines 147-151):
validate against `root_dir` in posix mode; failure raises path-escape. -/
def resolvePath (c : OpCtx) (p : PStr) : Except OpError PStr :=
  match validate_within_boundary p c.root_dir with
  | some r => Except.ok r
  | none => Except.error (OpError.backend ErrorCode.path_escape)

/-- Python `str.strip()` whitespace test (the ASCII part, which covers
the stdout produced by the modelled commands). -/
def isPySpace (c : Char) : Bool :=
  c = ' ' ∨ c = '\t' ∨ c = '\n' ∨ c = '\r' ∨ c = '\x0b' ∨ c = '\x0c'

/-- Python `s.strip()`. -/
def pyStrip (s : PStr) : PStr :=
  ((s.dropWhile isPySpace).reverse.dropWhile isPySpace).reverse

/-- Python `s[:n]` with an `int` bound: a non-negative bound takes a
prefix, a negative bound counts back from the end, clamped at zero. -/
def pySliceTo (s : PStr) (n : Int) : PStr :=
  if 0 ≤ n then s.take n.toNat else s.take (s.length - (-n).toNat)

/-- Decimal rendering of a natural, as Python f-string interpolation. -/
def natChars (n : Nat) : PStr := (toString n).data

/-- Decimal rendering of an integer, as Python f-string interpolation. -/
def intChars (n : Int) : PStr := (toString n).data

/-- The suffix `exec` appends when truncating stdout (remote.py lines
185-189), including the two newlines of the f-string. -/
def truncationNotice (origLen : Nat) (shown : Int) : PStr :=
  pstr "\n\n... [Output truncated. Full output was " ++ natChars origLen ++
    pstr " characters, showing first " ++ intChars shown ++ pstr "]"

/-- Post-processing of a successful exec's stdout (remote.py lines
181-189): strip, then truncate when `max_output_length` is configured
non-zero and the stripped output exceeds it. -/
def execPostprocess (maxLen : Nat) (rawStdout : PStr) : PStr :=
  let output := pyStrip rawStdout
  if maxLen ≠ 0 ∧ maxLen < output.length then
    let truncated : Int := (maxLen : Int) - 50
    pySliceTo output truncated ++ truncationNotice output.length truncated
  else output

/-- ExecOptions: cwd and env (types.py); the encoding option only
re-encodes the returned text and is not modelled. -/
structure ExecOptions where
  cwd : Option PStr
  env : List (PStr × PStr)

/-- Python `" ".join(parts)`. -/
def joinSpace : List PStr → PStr
  | [] => []
  | [s] => s
  | s :: ss => s ++ ' ' :: joinSpace ss

/-- Shell-line framing of exec (remote.py lines 173-177):
`cd cwd && HOME=cwd env command` with `cwd` defaulting to `root_dir`
(also for a falsy empty cwd) and env joined as space-separated `K=V`
pairs carrying a trailing space when non-empty. -/
def fullCommand (root_dir : PStr) (opts : ExecOptions) (command : PStr) : PStr :=
  let cwd := match opts.cwd with
    | some cw => if cw = [] then root_dir else cw
    | none => root_dir
  let env_str := match opts.env with
    | [] => []
    | l => joinSpace (l.map (fun kv => kv.1 ++ '=' :: kv.2)) ++ [' ']
  pstr "cd " ++ cwd ++ pstr " && HOME=" ++ cwd ++ ' ' :: env_str ++ command

/-- `RemoteFilesystemBackend.exec` (remote.py lines 153-200): reject an
empty command, consult the safety oracle when `prevent_dangerous` is
set, ensure the connection, run the framed command; exit code 0 returns
the post-processed stdout, otherwise exec-failed. -/
def execModel (c : OpCtx) (w : OpWorld) (command : PStr) (opts : ExecOptions) :
    Except OpError PStr := do
  if pyStrip command = [] then
    throw (OpError.backend ErrorCode.empty_command)
  if c.prevent_dangerous then
    if w.dangerous command then
      throw (OpError.backend ErrorCode.dangerous_operation)
    match w.commandSafe command with
    | some _ => throw (OpError.backend ErrorCode.not_safe_command)
    | none => pure ()
  ensureConnected c w
  let r := w.runRes (fullCommand c.root_dir opts command)
  if r.returncode = 0 then
    pure (execPostprocess c.max_output_length r.stdout)
  else
    throw (OpError.backend ErrorCode.exec_failed)

/-- `RemoteFilesystemBackend.read` (remote.py lines 202-223). -/
def readModel (c : OpCtx) (w : OpWorld) (p : PStr) : Except OpError PStr := do
  let resolved ← resolvePath c p
  let full_path := normpath (pjoin (pstr "/") resolved)
  ensureConnected c w
  match w.readData full_path with
  | some d => pure d
  | none => throw (OpError.backend ErrorCode.read_failed)

/-- `RemoteFilesystemBackend.write` (remote.py lines 225-247): on
success the issued SFTP calls are exactly `writeCalls`; SFTP failures
wrap as write-failed. -/
def writeModel (c : OpCtx) (w : OpWorld) (p : PStr) : Except OpError (List SFTPCall) := do
  let resolved ← resolvePath c p
  ensureConnected c w
  if w.makedirsOk ∧ w.writeOk then pure (writeCalls c.root_dir resolved)
  else throw (OpError.backend ErrorCode.write_failed)

/-- `RemoteFilesystemBackend.rename` (remote.py lines 249-263). -/
def renameModel (c : OpCtx) (w : OpWorld) (po pn : PStr) :
    Except OpError (List SFTPCall) := do
  let oldR ← resolvePath c po
  let newR ← resolvePath c pn
  ensureConnected c w
  if w.renameOk then pure (renameCalls oldR newR)
  else throw (OpError.backend ErrorCode.write_failed)

/-- `RemoteFilesystemBackend.rm` (remote.py lines 265-291): deletion via
`rm` over SSH; a non-zero exit without `force` is write-failed. -/
def rmModel (c : OpCtx) (w : OpWorld) (p : PStr) (recursive force : Bool) :
    Except OpError Unit := do
  let resolved ← resolvePath c p
  ensureConnected c w
  let cmd :=
    if recursive then (if force then pstr "rm -rf " else pstr "rm -r ") ++ resolved
    else (if force then pstr "rm -f " else pstr "rm ") ++ resolved
  let r := w.runRes cmd
  if r.returncode ≠ 0 ∧ ¬ force then
    throw (OpError.backend ErrorCode.write_failed)

/-- Lexicographic order on the character lists, as Python compares the
strings that `sorted()` receives. -/
def pstrLe : PStr → PStr → Bool
  | [], _ => true
  | _ :: _, [] => false
  | a :: as, b :: bs => if a = b then pstrLe as bs else decide (a < b)

/-- `RemoteFilesystemBackend.readdir` (remote.py lines 293-308). -/
def readdirModel (c : OpCtx) (w : OpWorld) (p : PStr) : Except OpError (List PStr) := do
  let resolved ← resolvePath c p
  let full_path := normpath (pjoin (pstr "/") resolved)
  ensureConnected c w
  match w.listdirRes full_path with
  | some es => pure (es.mergeSort pstrLe)
  | none => throw (OpError.backend ErrorCode.ls_failed)

/-- `RemoteFilesystemBackend.mkdir` (remote.py lines 310-330): on
success the issued SFTP call is exactly `mkdirCalls`. -/
def mkdirModel (c : OpCtx) (w : OpWorld) (p : PStr) (recursive : Bool) :
    Except OpError (List SFTPCall) := do
  let resolved ← resolvePath c p
  ensureConnected c w
  if (if recursive then w.makedirsOk else w.mkdirOk) then
    pure (mkdirCalls c.root_dir resolved recursive)
  else throw (OpError.backend ErrorCode.write_failed)

/-- `RemoteFilesystemBackend.touch` (remote.py lines 332-343). -/
def touchModel (c : OpCtx) (w : OpWorld) (p : PStr) : Except OpError Unit := do
  let resolved ← resolvePath c p
  ensureConnected c w
  let r := w.runRes (pstr "touch " ++ resolved)
  if r.returncode ≠ 0 then
    throw (OpError.backend ErrorCode.write_failed)

/-- `RemoteFilesystemBackend.exists` (remote.py lines 345-351). -/
def existsModel (c : OpCtx) (w : OpWorld) (p : PStr) : Except OpError Bool := do
  let resolved ← resolvePath c p
  ensureConnected c w
  let r := w.runRes (pstr "test -e " ++ resolved)
  pure (r.returncode = 0)

/-- `RemoteFilesystemBackend.stat` (remote.py lines 353-375). -/
def statModel (c : OpCtx) (w : OpWorld) (p : PStr) : Except OpError FileStat := do
  let resolved ← resolvePath c p
  let full_path := normpath (pjoin (pstr "/") resolved)
  ensureConnected c w
  match w.statRes full_path with
  | some st => pure st
  | none => throw (OpError.backend ErrorCode.read_failed)

/-- A destroyed backend context with the test-suite root. -/
def destroyedCtx : OpCtx :=
  { status := ConnectionStatus.destroyed
    transportPresent := false
    root_dir := pstr "/workspace"
    prevent_dangerous := false
    max_output_length := 0 }

/-- A benign oracle world in which every external call succeeds. -/
def quietWorld : OpWorld :=
  { dangerous := fun _ => false
    commandSafe := fun _ => none
    connectOk := true
    runRes := fun _ => { returncode := 0, stdout := [], stderr := [] }
    readData := fun _ => some []
    writeOk := true
    renameOk := true
    listdirRes := fun _ => some []
    makedirsOk := true
    mkdirOk := true
    statRes := fun _ => some { is_file := true, is_directory := false, size := 0, modified := 0 } }

/-- C4 counterexample: the claim fails as stated — on a destroyed
backend, `exec` with an empty command fails with the empty-command
kind (and a path-escaping `read` with path-escape), not with
connection-closed, because those validations run before the destroyed
check. -/
theorem destroyed_not_always_connection_closed :
    execModel destroyedCtx quietWorld [] { cwd := none, env := [] } =
      Except.error (OpError.backend ErrorCode.empty_command) ∧
    readModel destroyedCtx quietWorld (pstr "../etc/passwd") =
      Except.error (OpError.backend ErrorCode.path_escape) ∧
    ErrorCode.empty_command ≠ ErrorCode.connection_closed ∧
    ErrorCode.path_escape ≠ ErrorCode.connection_closed := by
  exact ⟨rfl, rfl, by decide, by decide⟩

/-- C4 (amended): on a destroyed backend every one of the ten remote
operations fails with the connection-closed kind for every input that
passes its synchronous pre-I/O validation (a non-whitespace command
passing the safety gate when enabled; paths validating inside the
workspace boundary), independently of the oracle world. -/
theorem destroyed_ops_connection_closed (c : OpCtx) (w : OpWorld)
    (hd : c.status = ConnectionStatus.destroyed) :
    (∀ cmd opts, pyStrip cmd ≠ [] →
      (c.prevent_dangerous = true → w.dangerous cmd = false ∧ w.commandSafe cmd = none) →
      execModel c w cmd opts = Except.error (OpError.backend ErrorCode.connection_closed)) ∧
    (∀ p r, validate_within_boundary p c.root_dir = some r →
      readModel c w p = Except.error (OpError.backend ErrorCode.connection_closed)) ∧
    (∀ p r, validate_within_boundary p c.root_dir = some r →
      writeModel c w p = Except.error (OpError.backend ErrorCode.connection_closed)) ∧
    (∀ po pn ro rn, validate_within_boundary po c.root_dir = some ro →
      validate_within_boundary pn c.root_dir = some rn →
      renameModel c w po pn = Except.error (OpError.backend ErrorCode.connection_closed)) ∧
    (∀ p r rec force, validate_within_boundary p c.root_dir = some r →
      rmModel c w p rec force = Except.error (OpError.backend ErrorCode.connection_closed)) ∧
    (∀ p r, validate_within_boundary p c.root_dir = some r →
      readdirModel c w p = Except.error (OpError.backend ErrorCode.connection_closed)) ∧
    (∀ p r rec, validate_within_boundary p c.root_dir = some r →
      mkdirModel c w p rec = Except.error (OpError.backend ErrorCode.connection_closed)) ∧
    (∀ p r, validate_within_boundary p c.root_dir = some r →
      touchModel c w p = Except.error (OpError.backend ErrorCode.connection_closed)) ∧
    (∀ p r, validate_within_boundary p c.root_dir = some r →
      existsModel c w p = Except.error (OpError.backend ErrorCode.connection_closed)) ∧
    (∀ p r, validate_within_boundary p c.root_dir = some r →
      statModel c w p = Except.error (OpError.backend ErrorCode.connection_closed)) := by
  have hens : ensureConnected c w =
      Except.error (OpError.backend ErrorCode.connection_closed) := by
    simp [ensureConnected, hd]
  refine ⟨?_, ?_, ?_, ?_, ?_, ?_, ?_, ?_, ?_, ?_⟩
  · intro cmd opts h1 h2
    rw [execModel]
    rw [if_neg h1]
    cases hp : c.prevent_dangerous with
    | false =>
      simp [hp, hens]
      rfl
    | true =>
      obtain ⟨hdang, hsafe⟩ := h2 hp
      simp [hp, hdang, hsafe, hens]
      rfl
  · intro p r hv
    simp [readModel, resolvePath, hv, hens]
    rfl
  · intro p r hv
    simp [writeModel, resolvePath, hv, hens]
    rfl
  · intro po pn ro rn hvo hvn
    simp [renameModel, resolvePath, hvo, hvn, hens]
    rfl
  · intro p r rec force hv
    simp [rmModel, resolvePath, hv, hens]
    rfl
  · intro p r hv
    simp [readdirModel, resolvePath, hv, hens]
    rfl
  · intro p r rec hv
    simp [mkdirModel, resolvePath, hv, hens]
    rfl
  · intro p r hv
    simp [touchModel, resolvePath, hv, hens]
    rfl
  · intro p r hv
    simp [existsModel, resolvePath, hv, hens]
    rfl
  · intro p r hv
    simp [statModel, resolvePath, hv, hens]
    rfl

/-- Closed-instance check for `destroyed_ops_connection_closed`: all ten
operations on a destroyed backend at concrete valid inputs. -/
theorem destroyed_ops_connection_closed_witness :
    execModel destroyedCtx quietWorld (pstr "echo hi") { cwd := none, env := [] } =
      Except.error (OpError.backend ErrorCode.connection_closed) ∧
    readModel destroyedCtx quietWorld (pstr "file.txt") =
      Except.error (OpError.backend ErrorCode.connection_closed) ∧
    writeModel destroyedCtx quietWorld (pstr "file.txt") =
      Except.error (OpError.backend ErrorCode.connection_closed) ∧
    renameModel destroyedCtx quietWorld (pstr "a.txt") (pstr "b.txt") =
      Except.error (OpError.backend ErrorCode.connection_closed) ∧
    rmModel destroyedCtx quietWorld (pstr "file.txt") true false =
      Except.error (OpError.backend ErrorCode.connection_closed) ∧
    readdirModel destroyedCtx quietWorld (pstr "sub") =
      Except.error (OpError.backend ErrorCode.connection_closed) ∧
    mkdirModel destroyedCtx quietWorld (pstr "sub") true =
      Except.error (OpError.backend ErrorCode.connection_closed) ∧
    touchModel destroyedCtx quietWorld (pstr "file.txt") =
      Except.error (OpError.backend ErrorCode.connection_closed) ∧
    existsModel destroyedCtx quietWorld (pstr "file.txt") =
      Except.error (OpError.backend ErrorCode.connection_closed) ∧
    statModel destroyedCtx quietWorld (pstr "file.txt") =
      Except.error (OpError.backend ErrorCode.connection_closed) := by
  obtain ⟨he, hr, hw, hrn, hrm, hrd, hmk, ht, hex, hst⟩ :=
    destroyed_ops_connection_closed destroyedCtx quietWorld rfl
  exact ⟨he (pstr "echo hi") { cwd := none, env := [] } (by decide) (by decide),
    hr (pstr "file.txt") (pstr "/workspace/file.txt") (by decide),
    hw (pstr "file.txt") (pstr "/workspace/file.txt") (by decide),
    hrn (pstr "a.txt") (pstr "b.txt") (pstr "/workspace/a.txt") (pstr "/workspace/b.txt")
      (by decide) (by decide),
    hrm (pstr "file.txt") (pstr "/workspace/file.txt") true false (by decide),
    hrd (pstr "sub") (pstr "/workspace/sub") (by decide),
    hmk (pstr "sub") (pstr "/workspace/sub") true (by decide),
    ht (pstr "file.txt") (pstr "/workspace/file.txt") (by decide),
    hex (pstr "file.txt") (pstr "/workspace/file.txt") (by decide),
    hst (pstr "file.txt") (pstr "/workspace/file.txt") (by decide)⟩

theorem execPostprocess_trunc (maxLen : Nat) (raw : PStr) (h50 : 50 ≤ maxLen)
    (hlong : maxLen < (pyStrip raw).length) :
    execPostprocess maxLen raw =
      (pyStrip raw).take (maxLen - 50) ++
        truncationNotice (pyStrip raw).length ((maxLen - 50 : Nat) : Int) := by
  rw [execPostprocess]
  simp only
  rw [if_pos ⟨by omega, hlong⟩]
  have hcast : (maxLen : Int) - 50 = ((maxLen - 50 : Nat) : Int) := by omega
  rw [hcast, pySliceTo, if_pos (Int.ofNat_nonneg (maxLen - 50))]
  simp

/-- C8: for every exec call on a connected backend whose configured
`max_output_length` is at least 50 and whose successful command produces
a trimmed stdout longer than `max_output_length`, the returned output is
the first `max_output_length - 50` characters of the trimmed stdout
followed by the truncation line reporting the original length and the
shown length.  (For `0 < max_output_length < 50` the claim's phrase
"first max−50 bytes" has no meaning; Python then slices with a negative
index.) -/
theorem exec_output_truncation (c : OpCtx) (w : OpWorld) (cmd : PStr) (opts : ExecOptions)
    (hconn : c.status = ConnectionStatus.connected) (htrans : c.transportPresent = true)
    (hne : pyStrip cmd ≠ []) (hprev : c.prevent_dangerous = false)
    (hrc : (w.runRes (fullCommand c.root_dir opts cmd)).returncode = 0)
    (h50 : 50 ≤ c.max_output_length)
    (hlong : c.max_output_length <
      (pyStrip (w.runRes (fullCommand c.root_dir opts cmd)).stdout).length) :
    execModel c w cmd opts = Except.ok
      ((pyStrip (w.runRes (fullCommand c.root_dir opts cmd)).stdout).take
          (c.max_output_length - 50) ++
        truncationNotice (pyStrip (w.runRes (fullCommand c.root_dir opts cmd)).stdout).length
          ((c.max_output_length - 50 : Nat) : Int)) := by
  rw [execModel, if_neg hne]
  have hens : ensureConnected c w = Except.ok () := by
    simp [ensureConnected, hconn, htrans]
  simp [hprev, hens, hrc, execPostprocess_trunc c.max_output_length _ h50 hlong]

/-- Connected context with `max_output_length = 60` for the truncation
witness. -/
def truncCtx : OpCtx :=
  { status := ConnectionStatus.connected
    transportPresent := true
    root_dir := pstr "/workspace"
    prevent_dangerous := false
    max_output_length := 60 }

/-- World whose command produces 70 characters of stdout. -/
def truncWorld : OpWorld :=
  { quietWorld with
    runRes := fun _ => { returncode := 0, stdout := List.replicate 70 'a', stderr := [] } }

/-- Closed-instance check for `exec_output_truncation`: 70 characters of
stdout against a 60-character limit. -/
theorem exec_output_truncation_witness :
    execModel truncCtx truncWorld (pstr "echo hi") { cwd := none, env := [] } =
      Except.ok
        ((pyStrip (truncWorld.runRes
            (fullCommand truncCtx.root_dir { cwd := none, env := [] } (pstr "echo hi"))).stdout).take
            (truncCtx.max_output_length - 50) ++
          truncationNotice
            (pyStrip (truncWorld.runRes
              (fullCommand truncCtx.root_dir { cwd := none, env := [] } (pstr "echo hi"))).stdout).length
            ((truncCtx.max_output_length - 50 : Nat) : Int)) :=
  exec_output_truncation truncCtx truncWorld (pstr "echo hi") { cwd := none, env := [] }
    rfl rfl (by decide) rfl (by decide) (by decide) (by decide)

example : execPostprocess 60 (List.replicate 70 'a') =
    List.replicate 10 'a' ++
      pstr "\n\n... [Output truncated. Full output was 70 characters, showing first 10]" := by
  decide

/-- Modelled from the spec: `status.py` is not in the provided sources.
Per spec section 4.4 the status setter rejects transitions out of
destroyed, and destroy nonetheless always succeeds (section 7), so the
rejection is embedded as a silent no-op. -/
def statusTransition (cur tgt : ConnectionStatus) : ConnectionStatus :=
  if cur = ConnectionStatus.destroyed then cur else tgt

/-- ReconnectionConfig (types.py): enabled, max_retries (0 means
unbounded), delays in milliseconds and the backoff multiplier, over ℚ
(embedding exactly the Python float values used here). -/
structure ReconnectionConfig where
  enabled : Bool
  max_retries : Nat
  initial_delay_ms : ℚ
  max_delay_ms : ℚ
  backoff_multiplier : ℚ

/-- Reconnection-controller state of a RemoteFilesystemBackend: status,
retry counter, the armed one-shot delay in seconds (none when no timer
is armed), and a ghost trace of every armed delay in order. -/
structure ReconnState where
  status : ConnectionStatus
  retryCount : Nat
  pending : Option ℚ
  scheduled : List ℚ

/-- `RemoteFilesystemBackend._schedule_reconnect` (remote.py lines
118-136): return if reconnection is disabled or the retry budget is
spent; otherwise compute
`delay = min(initial_delay_ms * backoff_multiplier ** retry_count / 1000,
max_delay_ms / 1000)`, set status reconnecting and arm the one-shot
timer (recorded on the ghost trace). -/
def scheduleReconnect (cfg : ReconnectionConfig) (s : ReconnState) : ReconnState :=
  if ¬ cfg.enabled then s
  else if 0 < cfg.max_retries ∧ cfg.max_retries ≤ s.retryCount then s
  else
    let delay := min (cfg.initial_delay_ms * cfg.backoff_multiplier ^ s.retryCount / 1000)
      (cfg.max_delay_ms / 1000)
    { status := statusTransition s.status ConnectionStatus.reconnecting
      retryCount := s.retryCount
      pending := some delay
      scheduled := s.scheduled ++ [delay] }

/-- `RemoteFilesystemBackend.connect` failing (remote.py lines 90-108):
status connecting, then disconnected with the error; a reconnect is
scheduled when enabled and the exception re-raises (re-raising changes
no state). -/
def connectFail (cfg : ReconnectionConfig) (s : ReconnState) : ReconnState :=
  let s1 := { s with status := statusTransition s.status ConnectionStatus.connecting }
  let s2 := { s1 with status := statusTransition s1.status ConnectionStatus.disconnected }
  if cfg.enabled then scheduleReconnect cfg s2 else s2

/-- `RemoteFilesystemBackend.connect` succeeding: connecting, connected,
retry counter reset (remote.py lines 90-103). -/
def connectSucceed (s : ReconnState) : ReconnState :=
  let s1 := { s with status := statusTransition s.status ConnectionStatus.connecting }
  let s2 := { s1 with status := statusTransition s1.status ConnectionStatus.connected }
  { s2 with retryCount := 0 }

/-- `RemoteFilesystemBackend._reconnect` whose attempt fails (remote.py
lines 138-145): the armed timer fires (consumed), retry_count
increments, connect() runs and fails, its exception logged and
swallowed. -/
def reconnectFireFail (cfg : ReconnectionConfig) (s : ReconnState) : ReconnState :=
  connectFail cfg { s with pending := none, retryCount := s.retryCount + 1 }

/-- Initial controller state (remote.py lines 61-66). -/
def initReconnState : ReconnState :=
  { status := ConnectionStatus.disconnected
    retryCount := 0
    pending := none
    scheduled := [] }

/-- State after an initial failed connect() followed by `n` failed
reconnect attempts. -/
def allFailTrace (cfg : ReconnectionConfig) : Nat → ReconnState
  | 0 => connectFail cfg initReconnState
  | n + 1 => reconnectFireFail cfg (allFailTrace cfg n)

theorem allFailTrace_unbounded (cfg : ReconnectionConfig) (he : cfg.enabled = true)
    (hm : cfg.max_retries = 0) : ∀ n,
    (allFailTrace cfg n).retryCount = n ∧
    (allFailTrace cfg n).scheduled = (List.range (n + 1)).map (fun k =>
      min (cfg.initial_delay_ms * cfg.backoff_multiplier ^ k / 1000)
        (cfg.max_delay_ms / 1000)) := by
  intro n
  induction n with
  | zero =>
    simp [allFailTrace, connectFail, scheduleReconnect, initReconnState, statusTransition,
      he, hm, List.range_succ]
  | succ n ih =>
    obtain ⟨ihr, ihs⟩ := ih
    constructor
    · simp [allFailTrace, reconnectFireFail, connectFail, scheduleReconnect, statusTransition,
        he, hm, ihr]
    · simp only [allFailTrace, reconnectFireFail, connectFail, scheduleReconnect,
        statusTransition, he, hm]
      simp [ihr, ihs, List.range_succ]

/-- C6: in a trace where every attempt fails, the delay armed at the
k-th schedule is `min(initial_delay_ms * backoff_multiplier ^ k,
max_delay_ms)` milliseconds (the code arms the timer in seconds, so the
armed value times 1000), and with initial 100 ms, multiplier 2 and max
1 s the first five scheduled delays are 100, 200, 400, 800 and 1000 ms. -/
theorem reconnect_backoff_delays (cfg : ReconnectionConfig) (he : cfg.enabled = true)
    (hm : cfg.max_retries = 0) (n : Nat) :
    (allFailTrace cfg n).scheduled.map (· * 1000) =
      (List.range (n + 1)).map (fun k =>
        min (cfg.initial_delay_ms * cfg.backoff_multiplier ^ k) cfg.max_delay_ms) ∧
    (allFailTrace
        { enabled := true
          max_retries := 0
          initial_delay_ms := 100
          max_delay_ms := 1000
          backoff_multiplier := 2 } 4).scheduled.map (· * 1000) =
      [100, 200, 400, 800, 1000] := by
  have key : ∀ (c : ReconnectionConfig), c.enabled = true → c.max_retries = 0 → ∀ m,
      (allFailTrace c m).scheduled.map (· * 1000) =
        (List.range (m + 1)).map (fun k =>
          min (c.initial_delay_ms * c.backoff_multiplier ^ k) c.max_delay_ms) := by
    intro c hce hcm m
    rw [(allFailTrace_unbounded c hce hcm m).2, List.map_map]
    refine List.map_congr_left ?_
    intro k _
    show min (c.initial_delay_ms * c.backoff_multiplier ^ k / 1000)
      (c.max_delay_ms / 1000) * 1000 = _
    rw [min_mul_of_nonneg _ _ (by norm_num : (0:ℚ) ≤ 1000),
      div_mul_cancel₀ _ (by norm_num : (1000:ℚ) ≠ 0),
      div_mul_cancel₀ _ (by norm_num : (1000:ℚ) ≠ 0)]
  refine ⟨key cfg he hm n, ?_⟩
  rw [key _ rfl rfl 4]
  norm_num [List.range_succ, min_def]

/-- Closed-instance check for `reconnect_backoff_delays` at the spec's
configuration. -/
theorem reconnect_backoff_delays_witness :
    (allFailTrace
        { enabled := true
          max_retries := 0
          initial_delay_ms := 100
          max_delay_ms := 1000
          backoff_multiplier := 2 } 4).scheduled.map (· * 1000) =
      (List.range 5).map (fun k => min ((100 : ℚ) * 2 ^ k) 1000) ∧
    (allFailTrace
        { enabled := true
          max_retries := 0
          initial_delay_ms := 100
          max_delay_ms := 1000
          backoff_multiplier := 2 } 4).scheduled.map (· * 1000) =
      [100, 200, 400, 800, 1000] :=
  reconnect_backoff_delays
    { enabled := true
      max_retries := 0
      initial_delay_ms := 100
      max_delay_ms := 1000
      backoff_multiplier := 2 } rfl rfl 4

/-- C7: with reconnection enabled and `max_retries = 3`, after the third
failed reconnection attempt the status is disconnected, no timer is
armed, exactly three delays were ever scheduled, and a further schedule
request is a no-op (so the controller never again sets reconnecting or
connecting). -/
theorem reconnect_stops_after_three (cfg : ReconnectionConfig)
    (he : cfg.enabled = true) (hm : cfg.max_retries = 3) :
    (allFailTrace cfg 3).status = ConnectionStatus.disconnected ∧
    (allFailTrace cfg 3).pending = none ∧
    (allFailTrace cfg 3).scheduled.length = 3 ∧
    scheduleReconnect cfg (allFailTrace cfg 3) = allFailTrace cfg 3 := by
  simp [allFailTrace, reconnectFireFail, connectFail, scheduleReconnect, initReconnState,
    statusTransition, he, hm]

/-- Closed-instance check for `reconnect_stops_after_three` at the
spec's delay configuration with a budget of three retries. -/
theorem reconnect_stops_after_three_witness :
    (allFailTrace
        { enabled := true
          max_retries := 3
          initial_delay_ms := 100
          max_delay_ms := 1000
          backoff_multiplier := 2 } 3).status = ConnectionStatus.disconnected ∧
    (allFailTrace
        { enabled := true
          max_retries := 3
          initial_delay_ms := 100
          max_delay_ms := 1000
          backoff_multiplier := 2 } 3).pending = none ∧
    (allFailTrace
        { enabled := true
          max_retries := 3
          initial_delay_ms := 100
          max_delay_ms := 1000
          backoff_multiplier := 2 } 3).scheduled.length = 3 ∧
    scheduleReconnect
        { enabled := true
          max_retries := 3
          initial_delay_ms := 100
          max_delay_ms := 1000
          backoff_multiplier := 2 }
        (allFailTrace
          { enabled := true
            max_retries := 3
            initial_delay_ms := 100
            max_delay_ms := 1000
            backoff_multiplier := 2 } 3) =
      allFailTrace
        { enabled := true
          max_retries := 3
          initial_delay_ms := 100
          max_delay_ms := 1000
          backoff_multiplier := 2 } 3 :=
  reconnect_stops_after_three
    { enabled := true
      max_retries := 3
      initial_delay_ms := 100
      max_delay_ms := 1000
      backoff_multiplier := 2 } rfl rfl

/-- Destroy-relevant state of a RemoteFilesystemBackend: status, a
possibly armed reconnect task, tracked closeables and scoped children
(by identifier), transport presence, and registered status listeners. -/
structure DestroyState where
  status : ConnectionStatus
  reconnectPending : Bool
  closeables : List Nat
  activeScopes : List Nat
  transport : Bool
  listeners : List Nat
deriving DecidableEq, Repr

/-- Close-behaviour oracle: whether a given tracked closeable's close()
raises, and whether the transport's close() raises (its body,
websocket_ssh.py lines 185-197, awaits sftp exit, ssh close and the
websocket close — external calls that can raise). -/
structure CloseWorld where
  closeableRaises : Nat → Bool
  transportCloseRaises : Bool

/-- Result of destroy(): whether an exception propagated, the state on
return (or at the raise point), and the closeables whose close() was
attempted. -/
structure DestroyResult where
  raised : Bool
  state : DestroyState
  closeAttempted : List Nat
deriving Repr

/-- `RemoteFilesystemBackend.destroy` (remote.py lines 416-434): cancel
any reconnect task; close every tracked closeable inside try/except
(exceptions swallowed, hence no dependence on `closeableRaises`) and
clear the set; await the transport's close — this await is NOT inside a
try, so a transport-close exception propagates, leaving the state at the
raise point —; then clear the scope set, set status destroyed (the
setter ignores transitions out of destroyed) and clear the listeners. -/
def destroyModel (w : CloseWorld) (s : DestroyState) : DestroyResult :=
  let s1 := { s with reconnectPending := false }
  let attempted := s1.closeables
  let s2 := { s1 with closeables := [] }
  if s2.transport ∧ w.transportCloseRaises then
    { raised := true, state := s2, closeAttempted := attempted }
  else
    let s3 := { s2 with transport := false }
    let s4 := { s3 with activeScopes := [] }
    let s5 := { s4 with status := statusTransition s4.status ConnectionStatus.destroyed }
    { raised := false, state := { s5 with listeners := [] }, closeAttempted := attempted }

/-- C5 counterexample: a connected backend whose transport close raises.
destroy() propagates the exception and on that path the status is not
destroyed and the transport is not cleared, so destroy does not return
normally in every state. -/
theorem destroy_can_raise :
    (destroyModel { closeableRaises := fun _ => false, transportCloseRaises := true }
        { status := ConnectionStatus.connected
          reconnectPending := false
          closeables := [0]
          activeScopes := []
          transport := true
          listeners := [0] }).raised = true ∧
    (destroyModel { closeableRaises := fun _ => false, transportCloseRaises := true }
        { status := ConnectionStatus.connected
          reconnectPending := false
          closeables := [0]
          activeScopes := []
          transport := true
          listeners := [0] }).state.status ≠ ConnectionStatus.destroyed := by
  exact ⟨rfl, by decide⟩

/-- C5 (amended): destroy() swallows exceptions from tracked closeables
(its result never depends on them) and attempts close on every tracked
closeable; provided the transport's own unguarded close does not raise
(or no transport is held), destroy returns normally with the
destroyed-state invariant — status destroyed, transport cleared,
closeables emptied — and a second destroy also returns normally with the
invariant, under any close behaviour. -/
theorem destroy_invariant (w : CloseWorld) (s : DestroyState)
    (ht : s.transport = false ∨ w.transportCloseRaises = false) :
    (∀ w2 : CloseWorld, w2.transportCloseRaises = w.transportCloseRaises →
      destroyModel w2 s = destroyModel w s) ∧
    (destroyModel w s).closeAttempted = s.closeables ∧
    (destroyModel w s).raised = false ∧
    (destroyModel w s).state.status = ConnectionStatus.destroyed ∧
    (destroyModel w s).state.transport = false ∧
    (destroyModel w s).state.closeables = [] ∧
    (∀ w2 : CloseWorld,
      (destroyModel w2 (destroyModel w s).state).raised = false ∧
      (destroyModel w2 (destroyModel w s).state).state.status =
        ConnectionStatus.destroyed) := by
  have hcond : ¬ (s.transport = true ∧ w.transportCloseRaises = true) := by
    rcases ht with h | h <;> simp [h]
  have hstep : ∀ cur, statusTransition cur ConnectionStatus.destroyed =
      ConnectionStatus.destroyed := by
    intro cur
    unfold statusTransition
    split
    · assumption
    · rfl
  have hD : destroyModel w s =
      { raised := false
        state :=
          { status := statusTransition s.status ConnectionStatus.destroyed
            reconnectPending := false
            closeables := []
            activeScopes := []
            transport := false
            listeners := [] }
        closeAttempted := s.closeables } := by
    rw [destroyModel, if_neg hcond]
  refine ⟨?_, ?_, ?_, ?_, ?_, ?_, ?_⟩
  · intro w2 h2
    rw [destroyModel, destroyModel, h2]
  · rw [hD]
  · rw [hD]
  · rw [hD]
    exact hstep s.status
  · rw [hD]
  · rw [hD]
  · intro w2
    rw [hD]
    refine ⟨?_, ?_⟩
    · rw [destroyModel, if_neg (by simp)]
    · rw [destroyModel, if_neg (by simp)]
      exact hstep _

/-- A close world whose tracked closeables all raise but whose transport
closes cleanly. -/
def c5World : CloseWorld :=
  { closeableRaises := fun _ => true, transportCloseRaises := false }

/-- A connected backend state holding a reconnect task, one tracked
closeable, one scoped child, a transport and one listener. -/
def c5State : DestroyState :=
  { status := ConnectionStatus.connected
    reconnectPending := true
    closeables := [0]
    activeScopes := [1]
    transport := true
    listeners := [2] }

/-- Closed-instance check for `destroy_invariant`: destroying `c5State`
under `c5World` returns normally with the destroyed-state invariant even
though the tracked closeable's close raises, and destroying again also
succeeds. -/
theorem destroy_invariant_witness :
    (∀ w2 : CloseWorld, w2.transportCloseRaises = c5World.transportCloseRaises →
      destroyModel w2 c5State = destroyModel c5World c5State) ∧
    (destroyModel c5World c5State).closeAttempted = c5State.closeables ∧
    (destroyModel c5World c5State).raised = false ∧
    (destroyModel c5World c5State).state.status = ConnectionStatus.destroyed ∧
    (destroyModel c5World c5State).state.transport = false ∧
    (destroyModel c5World c5State).state.closeables = [] ∧
    (∀ w2 : CloseWorld,
      (destroyModel w2 (destroyModel c5World c5State).state).raised = false ∧
      (destroyModel w2 (destroyModel c5World c5State).state).state.status =
        ConnectionStatus.destroyed) :=
  destroy_invariant c5World c5State (Or.inr rfl)

/-- Outcome of opening an MCP session against a server. -/
inductive MCPOutcome
  | sessionReady
  | timedOut
  | hangs
deriving DecidableEq, Repr

/-- `asyncio.wait_for` around the open-plus-initialise sequence, whose
duration in seconds is `none` when the server never completes: the
deadline fires either way, raising TimeoutError past the timeout. -/
def waitForOutcome (timeoutS : ℚ) (durationS : Option ℚ) : MCPOutcome :=
  match durationS with
  | some d => if d ≤ timeoutS then MCPOutcome.sessionReady else MCPOutcome.timedOut
  | none => MCPOutcome.timedOut

/-- The same sequence run with no timeout guard: it completes when the
server does, and hangs forever when the server never completes. -/
def noTimeoutOutcome (durationS : Option ℚ) : MCPOutcome :=
  match durationS with
  | some _ => MCPOutcome.sessionReady
  | none => MCPOutcome.hangs

/-- `VercelAIAdapter.get_mcp_client` (vercel.py lines 30-54): the whole
`_create_client` open-plus-initialise sequence runs under
`asyncio.wait_for` with `connection_timeout_ms / 1000` seconds, and
expiry raises TimeoutError. -/
def vercelGetMcpClient (connection_timeout_ms : ℚ) (durationS : Option ℚ) : MCPOutcome :=
  waitForOutcome (connection_timeout_ms / 1000) durationS

/-- The VercelAIAdapter constructor default (vercel.py line 25). -/
def vercelDefaultTimeoutMs : ℚ := 15000

/-- `create_remote_mcp_client` (client.py lines 43-68): the function
accepts `connection_timeout_ms` (signature default 10000) but its body
never uses it — the open-plus-initialise sequence runs with no guard. -/
def createRemoteMcpClient (connection_timeout_ms : ℚ) (durationS : Option ℚ) : MCPOutcome :=
  noTimeoutOutcome durationS

/-- The `create_remote_mcp_client` signature default (client.py line
48), which is 10 s, not the 15 s the spec names. -/
def remoteClientDefaultTimeoutMs : ℚ := 10000

/-- C3: the adapter path does enforce the configurable timeout (default
15 s; expiry raises timeout), but `create_remote_mcp_client` ignores its
`connection_timeout_ms` parameter: against a server whose
open-plus-initialise never completes it hangs instead of raising
timeout, for every configured value (and its signature default is
10 000 ms, not 15 000). -/
theorem mcp_timeout_enforcement (t d : ℚ) (hd : vercelDefaultTimeoutMs / 1000 < d) :
    vercelGetMcpClient vercelDefaultTimeoutMs (some d) = MCPOutcome.timedOut ∧
    vercelGetMcpClient vercelDefaultTimeoutMs none = MCPOutcome.timedOut ∧
    createRemoteMcpClient t none = MCPOutcome.hangs ∧
    (∀ u : ℚ, ∀ dur : Option ℚ, createRemoteMcpClient t dur = createRemoteMcpClient u dur) ∧
    remoteClientDefaultTimeoutMs ≠ vercelDefaultTimeoutMs := by
  refine ⟨?_, rfl, rfl, fun u dur => rfl, by norm_num [remoteClientDefaultTimeoutMs,
    vercelDefaultTimeoutMs]⟩
  rw [vercelGetMcpClient, waitForOutcome, if_neg (not_le.mpr hd)]

/-- Closed-instance check for `mcp_timeout_enforcement`: a server that
takes 20 s against the 15 s adapter default. -/
theorem mcp_timeout_enforcement_witness :
    vercelGetMcpClient vercelDefaultTimeoutMs (some 20) = MCPOutcome.timedOut ∧
    vercelGetMcpClient vercelDefaultTimeoutMs none = MCPOutcome.timedOut ∧
    createRemoteMcpClient 15000 none = MCPOutcome.hangs ∧
    (∀ u : ℚ, ∀ dur : Option ℚ,
      createRemoteMcpClient 15000 dur = createRemoteMcpClient u dur) ∧
    remoteClientDefaultTimeoutMs ≠ vercelDefaultTimeoutMs :=
  mcp_timeout_enforcement 15000 20 (by norm_num [vercelDefaultTimeoutMs])

/-- One tool-call delta fragment in a streamed chunk (chat.py lines
88-97): an index plus optional id, function name and arguments fragment.
Absent fields and empty-string fields behave identically under the
code's Python truthiness tests. -/
structure ToolCallFrag where
  index : Nat
  id : Option String
  name : Option String
  arguments : Option String

/-- One streamed chunk's delta (chat.py lines 72-97): optional text
content and an optional tool-call fragment list. -/
structure StreamDelta where
  content : Option String
  tool_calls : Option (List ToolCallFrag)

/-- The per-index accumulator record `{"id": "", "name": "",
"arguments": ""}` of chat.py line 91. -/
structure ToolAcc where
  id : String
  name : String
  arguments : String
deriving DecidableEq, Repr

/-- The accumulator dict `tool_calls_map`, an insertion-ordered
association list keyed by index. -/
abbrev ToolMap := List (Nat × ToolAcc)

/-- Dict lookup `tool_calls_map[idx]`. -/
def lookupTM (m : ToolMap) (i : Nat) : Option ToolAcc :=
  (m.find? (fun p => decide (p.1 = i))).map (·.2)

/-- Dict update of the record at key `i`. -/
def updateTM (m : ToolMap) (i : Nat) (g : ToolAcc → ToolAcc) : ToolMap :=
  m.map (fun p => if p.1 = i then (p.1, g p.2) else p)

/-- Applying one tool-call fragment (chat.py lines 88-97): insert the
empty record on first sight of the index, then overwrite `id` and `name`
and append to `arguments` for each truthy field. -/
def applyFrag (m : ToolMap) (tc : ToolCallFrag) : ToolMap :=
  let m0 := if lookupTM m tc.index = none
    then m ++ [(tc.index, { id := "", name := "", arguments := "" })] else m
  let m1 := match tc.id with
    | some s => if s ≠ "" then updateTM m0 tc.index (fun a => { a with id := s }) else m0
    | none => m0
  let m2 := match tc.name with
    | some s => if s ≠ "" then updateTM m1 tc.index (fun a => { a with name := s }) else m1
    | none => m1
  match tc.arguments with
  | some s => if s ≠ "" then
      updateTM m2 tc.index (fun a => { a with arguments := a.arguments ++ s }) else m2
  | none => m2

/-- Consuming one chunk (chat.py lines 72-97): truthy text extends the
running assistant text; the tool-call fragments fold into the map (an
absent or empty list leaves it unchanged, as the code's truthiness guard
does). -/
def processDelta (st : String × ToolMap) (d : StreamDelta) : String × ToolMap :=
  let content := match d.content with
    | some s => if s ≠ "" then st.1 ++ s else st.1
    | none => st.1
  let m := match d.tool_calls with
    | some frags => frags.foldl applyFrag st.2
    | none => st.2
  (content, m)

/-- Consuming a whole stream (the `for chunk in stream` loop of chat.py,
lines 68-97), starting from empty accumulators. -/
def processStream (ds : List StreamDelta) : String × ToolMap :=
  ds.foldl processDelta ("", [])

/-- Assembling `tool_calls_list` (chat.py lines 100-111): iterate
`sorted(tool_calls_map)` and read out each record. -/
def toolCallsList (m : ToolMap) : List ToolAcc :=
  ((m.map (·.1)).mergeSort (fun a b => decide (a ≤ b))).filterMap (fun i => lookupTM m i)

/-- All tool-call fragments of a stream, in arrival order. -/
def toolFrags (ds : List StreamDelta) : List ToolCallFrag :=
  ds.flatMap (fun d => d.tool_calls.getD [])

/-- Folding bare fragments into the map, ignoring text deltas. -/
def processFrags (fs : List ToolCallFrag) : ToolMap :=
  fs.foldl applyFrag []

/-- The last truthy value carried by a field across fragments, the
empty string when none carries one. -/
def lastTruthy (l : List (Option String)) : String :=
  l.foldl (fun acc o => match o with
    | some s => if s ≠ "" then s else acc
    | none => acc) ""

/-- Concatenation, in arrival order, of every arguments fragment. -/
def argsConcat (l : List (Option String)) : String :=
  l.foldl (fun acc o => match o with
    | some s => acc ++ s
    | none => acc) ""

/-- The fragments carrying a given index, in arrival order. -/
def fragsAt (fs : List ToolCallFrag) (i : Nat) : List ToolCallFrag :=
  fs.filter (fun f => decide (f.index = i))

/-- The record the spec prescribes for index `i`: id and name from the
fragments that carry them (the last one winning), arguments the
concatenation of every arguments fragment in arrival order. -/
def entrySpec (fs : List ToolCallFrag) (i : Nat) : ToolAcc :=
  { id := lastTruthy ((fragsAt fs i).map (·.id))
    name := lastTruthy ((fragsAt fs i).map (·.name))
    arguments := argsConcat ((fragsAt fs i).map (·.arguments)) }

/-- The accumulator invariant: distinct keys, and lookup answers
`entrySpec` exactly on the indices seen so far. -/
def MapSpec (fs : List ToolCallFrag) (m : ToolMap) : Prop :=
  (m.map (·.1)).Nodup ∧
  ∀ i, lookupTM m i =
    if i ∈ fs.map (·.index) then some (entrySpec fs i) else none

theorem lookupTM_nil (i : Nat) : lookupTM [] i = none := rfl

theorem lookupTM_append_single (m : ToolMap) (i j : Nat) (a : ToolAcc) :
    lookupTM (m ++ [(i, a)]) j =
      (lookupTM m j).or (if i = j then some a else none) := by
  rw [lookupTM, List.find?_append]
  cases hf : m.find? (fun p => decide (p.1 = j)) with
  | none =>
    simp [lookupTM, hf, List.find?]
    by_cases hij : i = j <;> simp [hij]
  | some p => simp [lookupTM, hf]

theorem lookupTM_updateTM (m : ToolMap) (i j : Nat) (g : ToolAcc → ToolAcc) :
    lookupTM (updateTM m i g) j =
      if j = i then (lookupTM m j).map g else lookupTM m j := by
  induction m with
  | nil => simp [lookupTM, updateTM]
  | cons p ps ih =>
    simp only [updateTM, List.map_cons] at ih ⊢
    by_cases hpi : p.1 = i
    · rw [if_pos hpi]
      by_cases hpj : p.1 = j
      · have hji : j = i := by rw [← hpj, hpi]
        simp [lookupTM, List.find?, hpj, hji]
      · simp only [lookupTM, List.find?,
          show (decide ((p.1, g p.2).1 = j)) = false by simpa using hpj,
          show (decide (p.1 = j)) = false by simpa using hpj]
        exact ih
    · rw [if_neg hpi]
      by_cases hpj : p.1 = j
      · have hji : j ≠ i := fun h => hpi (by rw [hpj, h])
        simp [lookupTM, List.find?, hpj, hji]
      · simp only [lookupTM, List.find?,
          show (decide (p.1 = j)) = false by simpa using hpj]
        exact ih

theorem updateTM_keys (m : ToolMap) (i : Nat) (g : ToolAcc → ToolAcc) :
    (updateTM m i g).map (·.1) = m.map (·.1) := by
  rw [updateTM, List.map_map]
  refine List.map_congr_left ?_
  intro p _
  by_cases h : p.1 = i <;> simp [h]

theorem lookupTM_eq_none_iff (m : ToolMap) (i : Nat) :
    lookupTM m i = none ↔ i ∉ m.map (·.1) := by
  rw [lookupTM, Option.map_eq_none', List.find?_eq_none]
  simp only [decide_eq_true_eq]
  constructor
  · intro h hmem
    rw [List.mem_map] at hmem
    obtain ⟨p, hp, hpi⟩ := hmem
    exact h p hp hpi
  · intro h p hp hpi
    exact h (List.mem_map.mpr ⟨p, hp, hpi⟩)

theorem lastTruthy_concat (l : List (Option String)) (o : Option String) :
    lastTruthy (l ++ [o]) = match o with
      | some s => if s ≠ "" then s else lastTruthy l
      | none => lastTruthy l := by
  rw [lastTruthy, List.foldl_append]
  rfl

theorem argsConcat_concat (l : List (Option String)) (o : Option String) :
    argsConcat (l ++ [o]) = match o with
      | some s => argsConcat l ++ s
      | none => argsConcat l := by
  rw [argsConcat, List.foldl_append]
  rfl

theorem fragsAt_concat (fs : List ToolCallFrag) (f : ToolCallFrag) (i : Nat) :
    fragsAt (fs ++ [f]) i = fragsAt fs i ++ (if f.index = i then [f] else []) := by
  rw [fragsAt, List.filter_append]
  by_cases h : f.index = i <;> simp [fragsAt, List.filter, h]

theorem entrySpec_concat_ne (fs : List ToolCallFrag) (f : ToolCallFrag) (i : Nat)
    (h : f.index ≠ i) : entrySpec (fs ++ [f]) i = entrySpec fs i := by
  rw [entrySpec, entrySpec, fragsAt_concat, if_neg h]
  simp

theorem entrySpec_nil_of_not_mem (fs : List ToolCallFrag) (i : Nat)
    (h : i ∉ fs.map (·.index)) :
    entrySpec fs i = { id := "", name := "", arguments := "" } := by
  have hnil : fragsAt fs i = [] := by
    rw [fragsAt, List.filter_eq_nil_iff]
    intro f hf
    simp only [decide_eq_true_eq]
    intro hidx
    exact h (List.mem_map.mpr ⟨f, hf, hidx⟩)
  rw [entrySpec, hnil]
  rfl

/-- The first-sight insertion step of `applyFrag`. -/
def insertNew (m : ToolMap) (i : Nat) : ToolMap :=
  if lookupTM m i = none then m ++ [(i, { id := "", name := "", arguments := "" })] else m

/-- One conditional field update of `applyFrag`: overwrite or extend via
`g` when the optional field is truthy. -/
def fieldStep (o : Option String) (g : String → ToolAcc → ToolAcc) (m : ToolMap)
    (i : Nat) : ToolMap :=
  match o with
  | some s => if s ≠ "" then updateTM m i (g s) else m
  | none => m

/-- The record transform a conditional field update performs on the
entry at the index. -/
def fieldFun (o : Option String) (g : String → ToolAcc → ToolAcc) (a : ToolAcc) : ToolAcc :=
  match o with
  | some s => if s ≠ "" then g s a else a
  | none => a

theorem applyFrag_decompose (m : ToolMap) (f : ToolCallFrag) :
    applyFrag m f =
      fieldStep f.arguments (fun s a => { a with arguments := a.arguments ++ s })
        (fieldStep f.name (fun s a => { a with name := s })
          (fieldStep f.id (fun s a => { a with id := s })
            (insertNew m f.index) f.index) f.index) f.index := rfl

theorem fieldStep_keys (o : Option String) (g : String → ToolAcc → ToolAcc)
    (m : ToolMap) (i : Nat) : (fieldStep o g m i).map (·.1) = m.map (·.1) := by
  cases o with
  | none => rfl
  | some s =>
    by_cases hs : s = "" <;> simp [fieldStep, hs, updateTM_keys]

theorem lookup_fieldStep (o : Option String) (g : String → ToolAcc → ToolAcc)
    (m : ToolMap) (i j : Nat) :
    lookupTM (fieldStep o g m i) j =
      if j = i then (lookupTM m j).map (fieldFun o g) else lookupTM m j := by
  cases o with
  | none =>
    by_cases h : j = i
    · subst h
      cases hx : lookupTM m j <;> simp [fieldStep, fieldFun, hx]
    · simp [fieldStep, h]
  | some s =>
    by_cases hs : s = ""
    · by_cases h : j = i
      · subst h
        cases hx : lookupTM m j <;> simp [fieldStep, fieldFun, hs, hx]
      · simp [fieldStep, hs, h]
    · have hg : fieldFun (some s) g = g s := by
        funext a
        simp [fieldFun, hs]
      by_cases h : j = i
      · simp [fieldStep, hs, lookupTM_updateTM, h, hg]
      · simp [fieldStep, hs, lookupTM_updateTM, h]

theorem insertNew_keys (m : ToolMap) (i : Nat) :
    (insertNew m i).map (·.1) =
      if lookupTM m i = none then m.map (·.1) ++ [i] else m.map (·.1) := by
  rw [insertNew]
  split <;> simp

theorem lookup_insertNew (m : ToolMap) (i j : Nat) :
    lookupTM (insertNew m i) j =
      if lookupTM m i = none ∧ j = i then some { id := "", name := "", arguments := "" }
      else lookupTM m j := by
  rw [insertNew]
  by_cases hnew : lookupTM m i = none
  · rw [if_pos hnew, lookupTM_append_single]
    by_cases hji : j = i
    · subst hji
      rw [hnew]
      simp [hnew]
    · have hij : ¬ i = j := fun h => hji h.symm
      simp [hji, hij]
  · rw [if_neg hnew, if_neg (by simp [hnew])]

theorem entrySpec_concat_self (ps : List ToolCallFrag) (f : ToolCallFrag) :
    entrySpec (ps ++ [f]) f.index =
      fieldFun f.arguments (fun s a => { a with arguments := a.arguments ++ s })
        (fieldFun f.name (fun s a => { a with name := s })
          (fieldFun f.id (fun s a => { a with id := s }) (entrySpec ps f.index))) := by
  rcases f with ⟨i, oid, oname, oargs⟩
  simp only [entrySpec, fragsAt_concat]
  simp only [eq_self_iff_true, if_true, List.map_append, List.map_cons, List.map_nil]
  rw [show ((fragsAt ps i).map (·.id)) ++ [oid] = (fragsAt ps i).map (·.id) ++ [oid] from rfl]
  rw [lastTruthy_concat, lastTruthy_concat, argsConcat_concat]
  rcases oid with _ | sid <;> rcases oname with _ | sname <;> rcases oargs with _ | sargs <;>
      simp only [fieldFun] <;> (repeat' split) <;> simp_all [String.append_empty]

theorem mapSpec_applyFrag {ps : List ToolCallFrag} {m : ToolMap} (h : MapSpec ps m)
    (f : ToolCallFrag) : MapSpec (ps ++ [f]) (applyFrag m f) := by
  obtain ⟨hnd, hlk⟩ := h
  have hnotmem : lookupTM m f.index = none → f.index ∉ ps.map (·.index) := by
    intro hnew hmem
    rw [hlk f.index, if_pos hmem] at hnew
    exact Option.noConfusion hnew
  rw [applyFrag_decompose]
  constructor
  · rw [fieldStep_keys, fieldStep_keys, fieldStep_keys, insertNew_keys]
    by_cases hnew : lookupTM m f.index = none
    · rw [if_pos hnew, List.nodup_append]
      refine ⟨hnd, List.nodup_singleton _, ?_⟩
      intro a ha hb
      rw [List.mem_singleton] at hb
      subst hb
      exact (lookupTM_eq_none_iff m f.index).mp hnew ha
    · rw [if_neg hnew]
      exact hnd
  · intro j
    rw [lookup_fieldStep, lookup_fieldStep, lookup_fieldStep, lookup_insertNew]
    by_cases hji : j = f.index
    · rw [if_pos hji, if_pos hji, if_pos hji]
      have hmem2 : j ∈ (ps ++ [f]).map (·.index) := by
        rw [List.map_append, List.mem_append]
        exact Or.inr (by simp [hji])
      rw [if_pos hmem2]
      have hbase : (if lookupTM m f.index = none ∧ j = f.index then
          some { id := "", name := "", arguments := "" } else lookupTM m j) =
          some (entrySpec ps j) := by
        by_cases hnew : lookupTM m f.index = none
        · rw [if_pos ⟨hnew, hji⟩,
            entrySpec_nil_of_not_mem ps j (by rw [hji]; exact hnotmem hnew)]
        · rw [if_neg (by simp [hnew]), hlk j]
          have hnew2 : lookupTM m j ≠ none := by rw [hji]; exact hnew
          rw [hlk j] at hnew2
          by_cases hmem : j ∈ ps.map (·.index)
          · rw [if_pos hmem]
          · rw [if_neg hmem] at hnew2
            exact absurd rfl hnew2
      rw [hbase]
      simp only [Option.map_some']
      rw [hji, entrySpec_concat_self]
    · rw [if_neg hji, if_neg hji, if_neg hji,
        if_neg (by rintro ⟨-, h⟩; exact hji h), hlk j]
      have hmemiff : (j ∈ (ps ++ [f]).map (·.index)) ↔ j ∈ ps.map (·.index) := by
        rw [List.map_append, List.mem_append]
        constructor
        · rintro (h | h)
          · exact h
          · rw [List.map_cons, List.map_nil, List.mem_singleton] at h
            exact absurd h hji
        · exact Or.inl
      by_cases hmem : j ∈ ps.map (·.index)
      · rw [if_pos hmem, if_pos (hmemiff.mpr hmem),
          entrySpec_concat_ne ps f j (fun h => hji h.symm)]
      · rw [if_neg hmem, if_neg (fun h => hmem (hmemiff.mp h))]

theorem mapSpec_foldl (fs : List ToolCallFrag) :
    ∀ (ps : List ToolCallFrag) (m : ToolMap), MapSpec ps m →
      MapSpec (ps ++ fs) (fs.foldl applyFrag m) := by
  induction fs with
  | nil => intro ps m h; simpa using h
  | cons f fs ih =>
    intro ps m h
    have h2 := ih (ps ++ [f]) (applyFrag m f) (mapSpec_applyFrag h f)
    rw [List.append_assoc] at h2
    simpa using h2

theorem mapSpec_processFrags (fs : List ToolCallFrag) : MapSpec fs (processFrags fs) := by
  have h0 : MapSpec [] ([] : ToolMap) := by
    refine ⟨List.nodup_nil, ?_⟩
    intro i
    simp [lookupTM_nil]
  simpa using mapSpec_foldl fs [] [] h0

theorem processStream_snd (ds : List StreamDelta) :
    ∀ st : String × ToolMap,
      (ds.foldl processDelta st).2 = (toolFrags ds).foldl applyFrag st.2 := by
  induction ds with
  | nil => intro st; rfl
  | cons d ds ih =>
    intro st
    rw [List.foldl_cons, ih]
    rw [show toolFrags (d :: ds) = d.tool_calls.getD [] ++ toolFrags ds from rfl,
      List.foldl_append]
    rcases d with ⟨c, tcs⟩
    cases tcs with
    | none => rfl
    | some frags => rfl

theorem filterMap_eq_map_of_some {α β : Type} (l : List α) (h : α → Option β) (g : α → β)
    (hl : ∀ a ∈ l, h a = some (g a)) : l.filterMap h = l.map g := by
  induction l with
  | nil => rfl
  | cons x xs ih =>
    rw [List.filterMap_cons, hl x (by simp), List.map_cons,
      ih (fun a ha => hl a (by simp [ha]))]

theorem sorted_mergeSortNat (l : List Nat) :
    List.Sorted (· ≤ ·) (l.mergeSort (fun a b => decide (a ≤ b))) := by
  have h : (l.mergeSort (fun a b => decide (a ≤ b))).Pairwise
      (fun a b => decide (a ≤ b) = true) :=
    List.sorted_mergeSort (fun a b c h1 h2 => by
        simp only [decide_eq_true_eq] at h1 h2 ⊢
        omega)
      (fun a b => by
        rcases Nat.le_total a b with h | h <;> simp [h]) l
  exact h.imp (by simp)

/-- C2: tool-call reassembly in one chat-loop iteration.  The
accumulator map depends only on the tool-call fragments, so the result
is insensitive to the interleaving with text deltas; the map holds
exactly one record per fragment index (keys without duplicates); and the
assembled tool_calls list runs over the distinct indices in ascending
order, each record taking id and name from whichever fragments carry
them and arguments as the concatenation, in arrival order, of every
arguments fragment for that index. -/
theorem chat_tool_call_reassembly (ds : List StreamDelta) :
    (processStream ds).2 = processFrags (toolFrags ds) ∧
    ((processStream ds).2.map (·.1)).Nodup ∧
    (∀ i, i ∈ (processStream ds).2.map (·.1) ↔ i ∈ (toolFrags ds).map (·.index)) ∧
    toolCallsList (processStream ds).2 =
      (((toolFrags ds).map (·.index)).dedup.mergeSort (fun a b => decide (a ≤ b))).map
        (entrySpec (toolFrags ds)) ∧
    List.Sorted (· ≤ ·)
      (((toolFrags ds).map (·.index)).dedup.mergeSort (fun a b => decide (a ≤ b))) ∧
    (((toolFrags ds).map (·.index)).dedup.mergeSort (fun a b => decide (a ≤ b))).Nodup := by
  have h0 : (processStream ds).2 = processFrags (toolFrags ds) :=
    processStream_snd ds ("", [])
  obtain ⟨hnd, hlk⟩ := mapSpec_processFrags (toolFrags ds)
  have hmemiff : ∀ i, i ∈ (processFrags (toolFrags ds)).map (·.1) ↔
      i ∈ (toolFrags ds).map (·.index) := by
    intro i
    constructor
    · intro hkey
      by_contra hmem
      have hn := hlk i
      rw [if_neg hmem] at hn
      exact (lookupTM_eq_none_iff _ i).mp hn hkey
    · intro hmem
      by_contra hkey
      have h1 := (lookupTM_eq_none_iff _ i).mpr hkey
      rw [hlk i, if_pos hmem] at h1
      exact Option.noConfusion h1
  have hkd : List.Perm ((processFrags (toolFrags ds)).map (·.1))
      (((toolFrags ds).map (·.index)).dedup) :=
    (List.perm_ext_iff_of_nodup hnd (List.nodup_dedup _)).mpr
      (fun a => (hmemiff a).trans (List.mem_dedup).symm)
  have hperm : List.Perm
      (((processFrags (toolFrags ds)).map (·.1)).mergeSort (fun a b => decide (a ≤ b)))
      ((((toolFrags ds).map (·.index)).dedup).mergeSort (fun a b => decide (a ≤ b))) :=
    ((List.mergeSort_perm _ _).trans hkd).trans (List.mergeSort_perm _ _).symm
  have hkeyseq : ((processFrags (toolFrags ds)).map (·.1)).mergeSort
        (fun a b => decide (a ≤ b)) =
      (((toolFrags ds).map (·.index)).dedup).mergeSort (fun a b => decide (a ≤ b)) :=
    List.eq_of_perm_of_sorted hperm (sorted_mergeSortNat _) (sorted_mergeSortNat _)
  refine ⟨h0, ?_, ?_, ?_, sorted_mergeSortNat _, ?_⟩
  · rw [h0]
    exact hnd
  · intro i
    rw [h0]
    exact hmemiff i
  · rw [h0, toolCallsList, hkeyseq]
    refine filterMap_eq_map_of_some _ _ _ ?_
    intro i hi
    have hmem : i ∈ (toolFrags ds).map (·.index) := by
      have := (List.mergeSort_perm _ (fun a b => decide (a ≤ b))).mem_iff.mp hi
      exact List.mem_dedup.mp this
    rw [hlk i, if_pos hmem]
  · exact ((List.mergeSort_perm _ _).symm.nodup (List.nodup_dedup _))

example :
    (processStream
      [ { content := some "Hel", tool_calls := none },
        { content := none, tool_calls :=
            some [{ index := 1, id := some "t2", name := none, arguments := none }] },
        { content := some "lo", tool_calls :=
            some [{ index := 0, id := some "t1", name := some "read",
                    arguments := some "pa" }] },
        { content := none, tool_calls :=
            some [{ index := 0, id := none, name := none, arguments := some "th" },
                  { index := 1, id := none, name := some "write",
                    arguments := some "ok" }] } ]).2 =
      [(1, { id := "t2", name := "write", arguments := "ok" }),
       (0, { id := "t1", name := "read", arguments := "path" })] := by
  decide

/-- A completion of one streamed call, after reassembly: the assistant
text and the assembled tool calls. -/
structure Completion where
  content : String
  toolCalls : List ToolAcc

/-- History records consumed by the completion API (spec section 6). -/
inductive Message
  | user (content : String)
  | assistant (content : Option String) (tool_calls : List ToolAcc)
  | tool (tool_call_id : String) (content : String)

/-- Oracle for the chat loop's externals: the (deterministic) streamed
completion for a given history, and each tool invocation's extracted
text result. -/
structure ChatOracle where
  complete : List Message → Completion
  callToolText : ToolAcc → String

/-- The assistant message appended in chat.py lines 113-118: `content`
only when the accumulated text is truthy, `tool_calls` as assembled. -/
def assistantMsg (comp : Completion) : Message :=
  Message.assistant (if comp.content ≠ "" then some comp.content else none) comp.toolCalls

/-- The tool-response messages appended by chat.py lines 129-157, one
per tool call, in order. -/
def toolMessages (o : ChatOracle) (tcs : List ToolAcc) : List Message :=
  tcs.map (fun tc => Message.tool tc.id (o.callToolText tc))

/-- The agentic inner loop of chat.py lines 59-122 — `for _step in
range(15)`, breaking when a completion carries no tool calls — returning
the final history and the number of iterations run.  The fuel argument
is the remaining range. -/
def innerLoop (o : ChatOracle) : Nat → List Message → List Message × Nat
  | 0, msgs => (msgs, 0)
  | n + 1, msgs =>
    let comp := o.complete msgs
    let msgs1 := msgs ++ [assistantMsg comp]
    if comp.toolCalls = [] then (msgs1, 1)
    else
      let r := innerLoop o n (msgs1 ++ toolMessages o comp.toolCalls)
      (r.1, r.2 + 1)

/-- One user turn (chat.py lines 55-122): append the user message and
run the inner loop with the literal bound 15. -/
def runTurn (o : ChatOracle) (msgs : List Message) (userInput : String) :
    List Message × Nat :=
  innerLoop o 15 (msgs ++ [Message.user userInput])

theorem innerLoop_le (o : ChatOracle) : ∀ (n : Nat) (msgs : List Message),
    (innerLoop o n msgs).2 ≤ n := by
  intro n
  induction n with
  | zero => intro msgs; exact Nat.le_refl 0
  | succ n ih =>
    intro msgs
    rw [innerLoop]
    split
    · exact Nat.succ_le_succ (Nat.zero_le n)
    · exact Nat.succ_le_succ (ih _)

theorem innerLoop_exact (o : ChatOracle)
    (h : ∀ msgs : List Message, (o.complete msgs).toolCalls ≠ []) :
    ∀ (n : Nat) (msgs : List Message), (innerLoop o n msgs).2 = n := by
  intro n
  induction n with
  | zero => intro msgs; rfl
  | succ n ih =>
    intro msgs
    rw [innerLoop, if_neg (h msgs)]
    simp [ih]

/-- C9: every user turn's agentic inner loop runs at most 15 iterations,
and with a model that returns at least one tool call on every history it
runs exactly 15 iterations and hands control back (the turn returns). -/
theorem inner_loop_bound (o : ChatOracle) (msgs : List Message) (userInput : String) :
    (runTurn o msgs userInput).2 ≤ 15 ∧
    ((∀ h : List Message, (o.complete h).toolCalls ≠ []) →
      (runTurn o msgs userInput).2 = 15) :=
  ⟨innerLoop_le o 15 _, fun h => innerLoop_exact o h 15 _⟩

example :
    (runTurn
      { complete := fun _ =>
          { content := "", toolCalls := [{ id := "t", name := "touch", arguments := "" }] }
        callToolText := fun _ => "done" } [] "hi").2 = 15 := by
  decide
